import Mathlib

/-!
Shallow embedding of the course-schedule extraction/normalization pipeline
(`src/app/course_stat_tool`): `src/data_cleaner.py`, `src/stat_export.py`,
`src/file_parser.py` and the PDF/statistics paths of `gui_run.py`.

Python dictionaries are modelled as association lists of `Val`; Python's
dynamic values occurring in course records (strings, ints, None) are the
`Val` inductive.  Python `re` operations are hand-compiled to structural
(fuel-based where needed) scanners with the exact leftmost/greedy semantics
of the patterns used by the source; where the source's character classes
involve full Unicode (`\w`, `\s`, `str.lower`), the embedding fixes them to
the scripts actually occurring in this data set (ASCII + CJK), as the spec's
design note on the Unicode-regex fallback prescribes.
-/

namespace CourseStat

/-- A Python value as stored in the course-record dictionaries of this
program: a string, an integer, or `None`. -/
inductive Val where
  | str (s : String)
  | int (n : Int)
  | none
deriving DecidableEq, Repr

/-- Python truthiness of a `Val` (`bool(v)`). -/
def Val.truthy : Val → Bool
  | .str s => s ≠ ""
  | .int n => n ≠ 0
  | .none => false

/-- Python `a or b` on values. -/
def pyOr (a b : Val) : Val := if a.truthy then a else b

/-- A record (Python dict with string keys) of the pipeline. -/
abbrev Record := List (String × Val)

/-- Key lookup; first binding wins (keys of Python dicts are unique). -/
def rlookup : Record → String → Option Val
  | [], _ => Option.none
  | (k, v) :: r, key => if k = key then some v else rlookup r key

/-- Python `d.get(key)` (default `None`). -/
def rget (r : Record) (k : String) : Val := (rlookup r k).getD Val.none

/-- Python `d.get(key, dflt)`. -/
def rgetD (r : Record) (k : String) (d : Val) : Val := (rlookup r k).getD d

/-- Does the dict have the key at all? -/
def rhas (r : Record) (k : String) : Bool := (rlookup r k).isSome

/-! ### Character classes

`isPySpace` models Python's `\s` / `str.strip` whitespace on the characters
occurring in this data (ASCII whitespace, NBSP, ideographic space). -/

def isPySpace (c : Char) : Bool :=
  c = ' ' || c = '\t' || c = '\n' || c = '\r' || c.val = 11 || c.val = 12 ||
  c.val = 0xA0 || c.val = 0x3000

/-- CJK range `一-鿿` used by the name-shape regexes. -/
def isCJK (c : Char) : Bool := 0x4e00 ≤ c.val && c.val ≤ 0x9fff

/-- CJK range `一-龥` used by some character classes. -/
def isCJKa (c : Char) : Bool := 0x4e00 ≤ c.val && c.val ≤ 0x9fa5

/-- The two middle-dot characters allowed inside names (`·`, `•`). -/
def isNameDot (c : Char) : Bool := c = '·' || c = '•'

/-- One character of the CJK-name character class `[一-鿿·•]`. -/
def isNameChar (c : Char) : Bool := isCJK c || isNameDot c

/-- Python `\w` restricted to the scripts of this data set:
ASCII alphanumerics, underscore, and CJK ideographs. -/
def isWordChar (c : Char) : Bool := c.isAlphanum || c = '_' || isCJK c

/-- `str.strip()` on a character list. -/
def pstripList (l : List Char) : List Char :=
  ((l.dropWhile isPySpace).reverse.dropWhile isPySpace).reverse

/-- Python `str.strip()`. -/
def pstrip (s : String) : String := String.mk (pstripList s.data)

/-- `str.lower()` on one character (ASCII range; cased letters of other
scripts do not occur in this data). -/
def lowerChar (c : Char) : Char :=
  if 65 ≤ c.toNat && c.toNat ≤ 90 then Char.ofNat (c.toNat + 32) else c

/-- Python `str.lower()`. -/
def plower (s : String) : String := String.mk (s.data.map lowerChar)

/-- Substring containment on character lists (Python `pat in s`). -/
def isSubList : List Char → List Char → Bool
  | pat, [] => pat.isEmpty
  | pat, c :: cs => pat.isPrefixOf (c :: cs) || isSubList pat cs

/-- Python `pat in s` on strings. -/
def strIn (pat s : String) : Bool := isSubList pat.data s.data

/-- Python `s.startswith(p)`. -/
def startsWith (s p : String) : Bool := p.data.isPrefixOf s.data

/-! ### Decimal rendering (Python `str(int)` / f-string interpolation) -/

/-- Little-endian decimal digits, fuel-indexed for kernel evaluation. -/
def natDigitsAux : Nat → Nat → List Nat
  | 0, _ => []
  | _ + 1, 0 => []
  | f + 1, n + 1 => ((n + 1) % 10) :: natDigitsAux f ((n + 1) / 10)

/-- Little-endian decimal digits of `n`. -/
def natDigits (n : Nat) : List Nat := natDigitsAux n n

/-- The ASCII digit character of `d < 10`. -/
def digitChar (d : Nat) : Char := Char.ofNat (48 + d)

/-- Decimal character rendering of a natural number. -/
def natChars (n : Nat) : List Char :=
  if n = 0 then ['0'] else ((natDigits n).map digitChar).reverse

/-- Python `str(n)` for a natural number. -/
def natStr (n : Nat) : String := String.mk (natChars n)

/-- Python `str(n)` for an integer. -/
def intStr (n : Int) : String :=
  if n < 0 then String.mk ('-' :: natChars n.natAbs) else natStr n.toNat

/-- Python `str(v)` for the values stored in records. -/
def Val.pyStr : Val → String
  | .str s => s
  | .int n => intStr n
  | .none => "None"

/-! ### Digit runs (`re.findall(r'\d+', s)`) -/

/-- Numeric value of a most-significant-first digit character list
(`int(run)`). -/
def runVal (l : List Char) : Nat :=
  l.foldl (fun a c => 10 * a + (c.toNat - 48)) 0

/-- Maximal runs of decimal digits, left to right; `cur` is the reversed
partial run being collected. -/
def digitRunsAux : List Char → List Char → List (List Char)
  | cur, [] => if cur.isEmpty then [] else [cur.reverse]
  | cur, c :: cs =>
    if c.isDigit then digitRunsAux (c :: cur) cs
    else if cur.isEmpty then digitRunsAux [] cs
    else cur.reverse :: digitRunsAux [] cs

/-- `[int(m) for m in re.findall(r'\d+', s)]`. -/
def digitRuns (s : String) : List Nat := (digitRunsAux [] s.data).map runVal

/-! ### `data_cleaner._parse_hours` -/

/-- `_parse_hours` of `src/data_cleaner.py`: falsy non-zero input is 0
(`if not duration_str and duration_str != 0`), otherwise all digit runs of
`str(value).lower()` are extracted; one run is returned directly, several
give the maximum (`foldl max 0` agrees with Python `max` on a non-empty
list of naturals), none give 0. -/
def parse_hours (v : Val) : Nat :=
  if !v.truthy && v ≠ .int 0 then 0
  else
    match (digitRunsAux [] (v.pyStr.data.map lowerChar)).map runVal with
    | [] => 0
    | [n] => n
    | ns => ns.foldl max 0

/-! ### Splitting and replacing -/

/-- `re.split('[..]', s)` on single separator characters, keeping empty
segments (Python semantics). -/
def splitEvery (p : Char → Bool) (l : List Char) : List (List Char) :=
  l.foldr
    (fun c acc =>
      if p c then [] :: acc
      else
        match acc with
        | [] => [[c]]
        | h :: t => (c :: h) :: t)
    [[]]

/-- `re.split('[..]+', s)`: split on runs of separator characters.  The
state is `some cur` while a segment `cur` (reversed) is being collected and
`none` right after a separator run. -/
def reSplitRunsAux (p : Char → Bool) : Option (List Char) → List Char → List (List Char)
  | some cur, [] => [cur.reverse]
  | Option.none, [] => [[]]
  | some cur, c :: cs =>
    if p c then cur.reverse :: reSplitRunsAux p Option.none cs
    else reSplitRunsAux p (some (c :: cur)) cs
  | Option.none, c :: cs =>
    if p c then reSplitRunsAux p Option.none cs
    else reSplitRunsAux p (some [c]) cs

/-- `re.split('[..]+', s)` starting in segment-collection state. -/
def reSplitRuns (p : Char → Bool) (l : List Char) : List (List Char) :=
  reSplitRunsAux p (some []) l

/-- Python `s.replace(old, new)` (all non-overlapping occurrences, left to
right); fuel-indexed by the length of the text. -/
def replaceAllAux (pat sub : List Char) : Nat → List Char → List Char
  | 0, l => l
  | _ + 1, [] => []
  | f + 1, c :: cs =>
    if pat.isPrefixOf (c :: cs) then sub ++ replaceAllAux pat sub f ((c :: cs).drop pat.length)
    else c :: replaceAllAux pat sub f cs

/-- Python `s.replace(old, new)`; an empty pattern (never used by the
source) leaves the string unchanged. -/
def replaceAll (s pat sub : String) : String :=
  if pat.data.isEmpty then s
  else String.mk (replaceAllAux pat.data sub.data s.data.length s.data)

/-- Python `s.split(sep, 1)`: the part before the first occurrence of the
(single-character) separator and the part after it, if the separator
occurs. -/
def splitOnce (c : Char) : List Char → Option (List Char × List Char)
  | [] => Option.none
  | x :: xs =>
    if x = c then some ([], xs)
    else (splitOnce c xs).map (fun p => (x :: p.1, p.2))

/-! ### `stat_export.parse_week_numbers` -/

/-- A segment of the form `\d+` (anchored both sides): non-empty, all
digits. -/
def matchAllDigits (l : List Char) : Bool := !l.isEmpty && l.all Char.isDigit

/-- Match `^(\d+)-(\d+)$` and return the two bounds. -/
def matchIntRange (l : List Char) : Option (Nat × Nat) :=
  let d1 := l.takeWhile Char.isDigit
  let rest := l.dropWhile Char.isDigit
  match rest with
  | '-' :: rest2 =>
    if d1.isEmpty then Option.none
    else if matchAllDigits rest2 then some (runVal d1, runVal rest2) else Option.none
  | _ => Option.none

/-- Week separators `[，,；;\s]`. -/
def isWeekSep (c : Char) : Bool := c = '，' || c = ',' || c = '；' || c = ';' || isPySpace c

/-- Peeling of a trailing parenthesised parity marker from one week
segment: the part before the first `(` and the suffix `(单)`/`(双)` when the
segment has both parentheses and the parenthesised part carries the
parity character. -/
def weekSegSplit (p : List Char) : List Char × String :=
  if isSubList ['('] p && isSubList [')'] p then
    match splitOnce '(' p with
    | some (b, paren) =>
      (b, if isSubList ['单'] paren then "(单)"
          else if isSubList ['双'] paren then "(双)" else "")
    | Option.none => (p, "")
  else (p, "")

/-- Processing of one segment of `parse_week_numbers`: peel a parenthesised
parity marker, then match `^(\d+)-(\d+)$` (bounds swapped into ascending
order) or `^(\d+)$`; other segments contribute nothing. -/
def weekSegmentTokens (p : List Char) : List String :=
  if p.isEmpty then []
  else
    let bp := weekSegSplit p
    match matchIntRange bp.1 with
    | some (a, b) =>
      let ab := if a > b then (b, a) else (a, b)
      [natStr ab.1 ++ "-" ++ natStr ab.2 ++ bp.2]
    | Option.none =>
      if matchAllDigits bp.1 then [String.mk bp.1] else []

/-- `parse_week_numbers` of `src/stat_export.py`: strip `周` and `第`, split
on comma/semicolon/whitespace runs, and turn each segment into at most one
interval token. -/
def parse_week_numbers (weekStr : String) : List String :=
  if weekStr = "" then []
  else
    let s := replaceAll (replaceAll weekStr "周" "") "第" ""
    let parts := reSplitRuns isWeekSep s.data
    parts.flatMap weekSegmentTokens

/-! ### Generic run collection and `re.sub` scanning -/

/-- Maximal runs of characters satisfying `p` (first argument is the
reversed run being collected). -/
def charRunsAux (p : Char → Bool) : List Char → List Char → List (List Char)
  | cur, [] => if cur.isEmpty then [] else [cur.reverse]
  | cur, c :: cs =>
    if p c then charRunsAux p (c :: cur) cs
    else if cur.isEmpty then charRunsAux p [] cs
    else cur.reverse :: charRunsAux p [] cs

/-- Scanner for `re.sub(pat, '', s)`: `m l` returns the length of the
(necessarily non-empty) match of `pat` at the head of `l`, if any; matched
text is removed, scanning resumes after it. -/
def reSubScan (m : List Char → Option Nat) : Nat → List Char → List Char
  | 0, l => l
  | _ + 1, [] => []
  | f + 1, c :: cs =>
    match m (c :: cs) with
    | some (n + 1) => reSubScan m f ((c :: cs).drop (n + 1))
    | _ => c :: reSubScan m f cs

/-- `re.sub(pat, '', s)` driven by the head matcher `m`. -/
def reSub (m : List Char → Option Nat) (l : List Char) : List Char :=
  reSubScan m l.length l

/-- Largest `k ≤ hi` satisfying `p`, searched downward (the backtracking of
a greedy bounded quantifier). -/
def greedyDown (p : Nat → Bool) : Nat → Option Nat
  | 0 => if p 0 then some 0 else Option.none
  | k + 1 => if p (k + 1) then some (k + 1) else greedyDown p k

/-! ### `data_cleaner._clean_teacher` and its source-text preclean -/

/-- The character class `[一-龥\w\s-]` of the preclean patterns. -/
def isClassB (c : Char) : Bool := isCJKa c || isWordChar c || isPySpace c || c = '-'

/-- Head matcher for `/?\s*23[一-龥\w\s-]{0,20}本`: optional slash, then
whitespace, then `23`, then a greedy run of at most 20 class-B characters
that backtracks until the next character is `本`. -/
def matchNoise23 (l : List Char) : Option Nat :=
  let (n1, l1) := match l with
    | '/' :: rest => (1, rest)
    | _ => (0, l)
  let sp := l1.takeWhile isPySpace
  let l2 := l1.dropWhile isPySpace
  match l2 with
  | '2' :: '3' :: l3 =>
    let hi := min 20 l3.length
    match greedyDown
        (fun k => (l3.take k).all isClassB && ((l3.drop k).headD ' ' = '本') && decide (k < l3.length)) hi with
    | some k => some (n1 + sp.length + 2 + k + 1)
    | Option.none => Option.none
  | _ => Option.none

/-- Head matcher for `-\d{3,}`. -/
def matchDashNum (l : List Char) : Option Nat :=
  match l with
  | '-' :: rest =>
    let d := rest.takeWhile Char.isDigit
    if 3 ≤ d.length then some (1 + d.length) else Option.none
  | _ => Option.none

/-- Head matcher for `\(\d+-\d+节\)`. -/
def matchParenSec (l : List Char) : Option Nat :=
  match l with
  | '(' :: rest =>
    let d1 := rest.takeWhile Char.isDigit
    match rest.dropWhile Char.isDigit with
    | '-' :: rest2 =>
      let d2 := rest2.takeWhile Char.isDigit
      match rest2.dropWhile Char.isDigit with
      | '节' :: ')' :: _ =>
        if d1.isEmpty || d2.isEmpty then Option.none
        else some (1 + d1.length + 1 + d2.length + 2)
      | _ => Option.none
    | _ => Option.none
  | _ => Option.none

/-- Distance to the first `)` (failing on a newline first, since `.` does
not match newlines). -/
def findCloseParen : List Char → Option Nat
  | [] => Option.none
  | c :: cs =>
    if c = ')' then some 0
    else if c = '\n' then Option.none
    else (findCloseParen cs).map (· + 1)

/-- Head matcher for the lazy `\(.*?\)`. -/
def matchParenAny (l : List Char) : Option Nat :=
  match l with
  | '(' :: rest => (findCloseParen rest).map (fun d => d + 2)
  | _ => Option.none

/-- Leftmost position where `/[一-龥\w\s-]{1,20}$` matches (the `$` is
modelled as end of string; the inputs here carry no trailing newline). -/
def findTrailSlash : List Char → Option Nat
  | [] => Option.none
  | c :: cs =>
    if c = '/' && 1 ≤ cs.length && cs.length ≤ 20 && cs.all isClassB then some 0
    else (findTrailSlash cs).map (· + 1)

/-- `re.sub(r'/[一-龥\w\s-]{1,20}$', '', l)`. -/
def subTrailSlash (l : List Char) : List Char :=
  match findTrailSlash l with
  | some p => l.take p
  | Option.none => l

/-- `re.sub(r'[\s ]+', ' ', l)`: collapse whitespace runs to single
spaces. -/
def collapseWs (l : List Char) : List Char :=
  (reSplitRuns isPySpace l).intersperse [' '] |>.flatten

/-- `_preclean_source_text` of `src/data_cleaner.py`. -/
def preclean_source_text (s : String) : String :=
  let l := (replaceAll s "未安排" "").data
  let l := reSub matchNoise23 l
  let l := reSub matchDashNum l
  let l := reSub matchParenSec l
  let l := reSub matchParenAny l
  let l := subTrailSlash l
  let s1 := pstrip (String.mk (collapseWs l))
  pstrip (replaceAll s1 "//" "/")

/-- Separators `[\n/;；|]` used when splitting the precleaned source
text. -/
def teacherSepChar (c : Char) : Bool :=
  c = '\n' || c = '/' || c = ';' || c = '；' || c = '|'

/-- `{2,6}` chopping of one maximal run for
`re.findall(r'[一-鿿·•]{2,6}', p)`: greedy matches of up to six characters,
shorter than two characters rejected. -/
def chopRunAux : Nat → List Char → List (List Char)
  | 0, _ => []
  | f + 1, l => if 2 ≤ l.length then l.take 6 :: chopRunAux f (l.drop 6) else []

/-- `re.findall(r'[一-鿿·•]{2,6}', p)`. -/
def findallName26 (l : List Char) : List (List Char) :=
  (charRunsAux isNameChar [] l).flatMap (fun run => chopRunAux run.length run)

/-- Full-anchored CJK-name shape `^[一-鿿·•]{lo,hi}$`. -/
def nameShape (lo hi : Nat) (s : String) : Bool :=
  lo ≤ s.data.length && s.data.length ≤ hi && s.data.all isNameChar

/-- The fixed reference string of common single-character family names. -/
def commonSurnames : List Char :=
  "赵钱孙李周吴郑王冯陈褚卫蒋沈韩杨朱秦尤许何吕施张孔曹严华金魏陶姜".data

/-- Configuration relevant to the cleaner (`config.yaml` contents; the
file is absent from this repository, so every list defaults to empty, the
code's own fallback). -/
structure Config where
  teacherBlacklist : List String := []
  departmentBlacklist : List String := []
  nameWhitelist : List String := []
  dedupeKeys : List String := []
deriving Repr

/-- `_is_valid_chinese_name`: 2-4 CJK-name characters, accepted when
whitelisted or when starting with a common family name. -/
def isValidChineseName (cfg : Config) (name : String) : Bool :=
  if name = "" then false
  else if !nameShape 2 4 name then false
  else
    let white := cfg.nameWhitelist.filter (· ≠ "")
    if white.contains name then true
    else
      match name.data with
      | c :: _ => commonSurnames.contains c
      | [] => false

/-- The candidate noise substrings rejected during name re-derivation. -/
def candidateNoiseSubs : List String :=
  ["学", "科", "本", "班", "院", "系", "专", "实验", "楼", "室", "号"]

/-- The final acceptance gate of the re-derivation branch
(`if _is_valid_chinese_name(chosen, config): t = chosen else: t = ''`). -/
def validGuard (cfg : Config) (chosen : String) : String :=
  if isValidChineseName cfg chosen then chosen else ""

/-- The candidate collection of the re-derivation branch of
`_clean_teacher`: preclean the source text, split on the separators, find
the 2-6 character CJK-shaped runs of each segment, and filter out course
name / blacklist / noise / digit candidates. -/
def deriveCandidates (cfg : Config) (sourceText : String) (courseName : String) : List String :=
  let src := preclean_source_text sourceText
  let parts := ((splitEvery teacherSepChar src.data).map pstripList).filter (fun p => !p.isEmpty)
  let bl := cfg.teacherBlacklist.map plower
  parts.flatMap (fun p =>
    (findallName26 p).filterMap (fun f =>
      let fs := String.mk f
      if courseName ≠ "" && strIn fs courseName then Option.none
      else if bl.any (fun tok => strIn tok fs) then Option.none
      else if candidateNoiseSubs.any (fun sub => strIn sub fs) then Option.none
      else if f.any Char.isDigit then Option.none
      else if 2 ≤ f.length && f.length ≤ 6 then some fs else Option.none))

/-- The candidate choice of the re-derivation branch (`if candidates:` and
the two selection loops), ending in the validity gate. -/
def deriveChoose (cfg : Config) (candidates : List String) : String :=
  match candidates with
  | [] => ""
  | _ :: _ =>
    let deptBl := cfg.departmentBlacklist.map plower
    let filtered0 := candidates.filter (fun c => !deptBl.any (fun db => strIn db (plower c)))
    let filtered := if filtered0.isEmpty then candidates else filtered0
    let chosen :=
      match filtered.reverse.find? (fun c => isValidChineseName cfg c) with
      | some c => c
      | Option.none =>
        match filtered.reverse.find? (fun c => nameShape 2 4 c) with
        | some c => c
        | Option.none => filtered.reverse.headD ""
    validGuard cfg chosen

/-- The re-derivation branch of `_clean_teacher` (`if not t and
source_text:`).  Returns `""` when nothing qualifies. -/
def deriveTeacher (cfg : Config) (sourceText : String) (courseName : String) : String :=
  deriveChoose cfg (deriveCandidates cfg sourceText courseName)

/-- The noise tokens that invalidate a raw teacher value. -/
def noisePatterns : List String :=
  ["未安排", "课", "本", "班", "计算", "大数据", "电信", "信息", "实验室"]

/-- `s.replace(' ', '')`. -/
def despace (s : String) : String := String.mk (s.data.filter (fun c => c ≠ ' '))

/-- The three invalidation checks of `_clean_teacher` applied to the
stripped raw teacher value: blacklist/noise/digit/length, overlap with the
course name, and the 2-6 character CJK-name shape. -/
def teacherChecks (cfg : Config) (courseName t0 : String) : String :=
  let bl := cfg.teacherBlacklist.map plower
  let t := if bl.any (fun tok => strIn tok t0) || noisePatterns.any (fun tok => strIn tok t0)
              || t0.data.any Char.isDigit || 30 < t0.data.length then "" else t0
  let t := if t ≠ "" && courseName ≠ ""
              && (strIn (despace courseName) (despace t) || strIn (despace t) (despace courseName))
           then "" else t
  if t ≠ "" && !nameShape 2 6 t then "" else t

/-- The tail of `_clean_teacher` after the checks: re-derive from the
source text when the value was invalidated, then substitute the sentinel
(`return t or '未安排'`). -/
def teacherFinish (cfg : Config) (sourceText : Val) (courseName T : String) : String :=
  let t := if T = "" && sourceText.truthy then deriveTeacher cfg sourceText.pyStr courseName else T
  if t = "" then "未安排" else t

/-- `_clean_teacher` of `src/data_cleaner.py`: falsy raw values are
replaced by `""` (`if not teacher_raw: teacher_raw = ""`), the stripped
string goes through the checks, then the finish. -/
def clean_teacher (cfg : Config) (teacherRaw : Val) (sourceText : Val) (courseName : String) : String :=
  teacherFinish cfg sourceText courseName
    (teacherChecks cfg courseName (pstrip (pyOr teacherRaw (Val.str "")).pyStr))

/-! ### `data_cleaner._normalize_course_name` and `clean_courses` -/

/-- The allow-list `[\w一-龥·•\-()（）【】:：,，;；/\\\s]` of the course-name
normaliser (standard-library `re` branch of the source; the enhanced
`regex` branch differs only on non-CJK Unicode letters). -/
def isAllowedNameChar (c : Char) : Bool :=
  isWordChar c || isCJKa c || isNameDot c || c = '-' || c = '(' || c = ')' ||
  c = '（' || c = '）' || c = '【' || c = '】' || c = ':' || c = '：' ||
  c = ',' || c = '，' || c = ';' || c = '；' || c = '/' || c = '\\' || isPySpace c

/-- `_normalize_course_name`: strip disallowed characters and trim. -/
def normalize_course_name (v : Val) : String :=
  if !v.truthy then ""
  else pstrip (String.mk (v.pyStr.data.filter isAllowedNameChar))

/-- The normalised course name of a raw record (`course.get("课程名称") or ""`
fed to the normaliser). -/
def cleanName (r : Record) : String :=
  normalize_course_name (pyOr (rget r "课程名称") (Val.str ""))

/-- `course.get("周次", "") or ""`. -/
def weekOf (r : Record) : Val := pyOr (rgetD r "周次" (Val.str "")) (Val.str "")

/-- `course.get("节次", "") or ""`. -/
def sectionOf (r : Record) : Val := pyOr (rgetD r "节次" (Val.str "")) (Val.str "")

/-- The deduplication key actually used by `clean_courses`:
`(课程名称, 周次, 节次)`. -/
abbrev DedupKey := String × Val × Val

/-- The key tuple `(name, week, section)` of one raw record. -/
def dedupKeyOf (r : Record) : DedupKey := (cleanName r, weekOf r, sectionOf r)

/-- `course.get("来源原文_课程名", "") or course.get("来源原文", "")`. -/
def sourceTextOf (r : Record) : Val :=
  pyOr (rgetD r "来源原文_课程名" (Val.str "")) (rgetD r "来源原文" (Val.str ""))

/-- The cleaned record built for one surviving raw record (the eleven-field
dictionary literal of `clean_courses`). -/
def cleanedRecord (cfg : Config) (r : Record) : Record :=
  let name := cleanName r
  let teacher := clean_teacher cfg (rgetD r "讲师" (Val.str "")) (sourceTextOf r) name
  let category :=
    let c := pyOr (rgetD r "分类" (Val.str "")) (Val.str "")
    if c.truthy then c else Val.str "未知"
  let classHour := parse_hours (rgetD r "课时" (rgetD r "课时_标准化" (Val.int 0)))
  [("文件来源", rgetD r "文件来源" (Val.str "")),
   ("sheet/页码", rgetD r "sheet/页码" (rgetD r "sheet名称" (Val.str ""))),
   ("课程名称", Val.str name),
   ("讲师", Val.str teacher),
   ("课时", Val.int classHour),
   ("分类", category),
   ("周次", weekOf r),
   ("地点", rgetD r "地点" (Val.str "")),
   ("节次", sectionOf r),
   ("时间段", rgetD r "时间段" (Val.str "")),
   ("来源原文_课程名", rgetD r "来源原文_课程名" (Val.str ""))]

/-- The record loop of `clean_courses`: discard invalid/short names, skip
already-seen `(name, week, section)` keys, emit cleaned records in
first-occurrence order. -/
def cleanGo (cfg : Config) : List Record → List DedupKey → List Record
  | [], _ => []
  | r :: rs, seen =>
    let name := cleanName r
    if name = "" || name.length < 2 then cleanGo cfg rs seen
    else if dedupKeyOf r ∈ seen then cleanGo cfg rs seen
    else cleanedRecord cfg r :: cleanGo cfg rs (dedupKeyOf r :: seen)

/-- `clean_courses` of `src/data_cleaner.py`.  The `dedupe_keys` argument
is resolved against the configuration exactly as in the source and then —
like the source — never used: the deduplication below is hard-coded on
`(课程名称, 周次, 节次)`. -/
def clean_courses (cfg : Config) (dedupeKeys : Option (List String)) (raw : List Record) : List Record :=
  let _dedupeKeys := dedupeKeys.getD
    (if cfg.dedupeKeys.isEmpty then ["课程名称", "讲师"] else cfg.dedupeKeys)
  cleanGo cfg raw []

/-- Does a raw record survive the name filter of `clean_courses`
(`if not name or len(name) < 2: continue`)? -/
def validRaw (r : Record) : Bool := !(cleanName r = "" || (cleanName r).length < 2)

/-- The default dedupe-key tuple named by the configuration
(`课程名称` + `讲师`) read off a cleaned record. -/
def outPairKey (c : Record) : Val × Val := (rget c "课程名称", rget c "讲师")

/-- The `(课程名称, 周次, 节次)` tuple read off a cleaned record. -/
def outTripleKey (c : Record) : Val × Val × Val :=
  (rget c "课程名称", rget c "周次", rget c "节次")

/-- A raw record's dedupe key as it appears on the cleaned record. -/
def tripleOfKey (k : DedupKey) : Val × Val × Val := (Val.str k.1, k.2.1, k.2.2)

/-- The concrete raw records of the dedupe-key counterexample: same course
name and instructor, different weeks. -/
def c1rawA : Record :=
  [("课程名称", Val.str "高数甲"), ("讲师", Val.str "张三"),
   ("周次", Val.str "1-2周"), ("节次", Val.str "1-2")]
def c1rawB : Record :=
  [("课程名称", Val.str "高数甲"), ("讲师", Val.str "张三"),
   ("周次", Val.str "3-4周"), ("节次", Val.str "1-2")]

/-- A raw record carrying the extraction-time `来源标识` locator field. -/
def c10raw : Record :=
  [("文件来源", Val.str "a.pdf"), ("sheet/页码", Val.str "第1页-星期一"),
   ("来源标识", Val.str "a.pdf|page1|星期一|sec1-2|col2"),
   ("课程名称", Val.str "高数甲"), ("讲师", Val.str "张三"),
   ("课时", Val.int 2), ("分类", Val.str "星期一-上午"),
   ("周次", Val.str "1-16周"), ("地点", Val.str "日新楼"), ("节次", Val.str "1-2")]

/-! ### `gui_run.extract_teacher_from_cell` -/

/-- Characters excluded from the keyword-pattern group `[^，,;/\\()]`. -/
def kwExcluded (c : Char) : Bool :=
  c = '，' || c = ',' || c = ';' || c = '/' || c = '\\' || c = '(' || c = ')'

/-- Group captured by `讲师[:：]\s*([^，,;/\\()]+)` right after the colon:
greedy whitespace, then a non-empty run of allowed characters; when the
character after the whitespace is excluded (or the string ends) the `\s*`
backtracks by one and the group is the last whitespace character. -/
def kwGroup (rest : List Char) : Option (List Char) :=
  let sp := rest.takeWhile isPySpace
  let afterSp := rest.dropWhile isPySpace
  match afterSp with
  | c :: _ =>
    if !kwExcluded c then some (afterSp.takeWhile (fun x => !kwExcluded x))
    else if !sp.isEmpty then some [sp.getLastD ' '] else Option.none
  | [] => if !sp.isEmpty then some [sp.getLastD ' '] else Option.none

/-- Head match of `kw[:：]\s*([^，,;/\\()]+)`. -/
def matchKwAt (kw : List Char) (l : List Char) : Option (List Char) :=
  if kw.isPrefixOf l then
    match l.drop kw.length with
    | c :: rest => if c = ':' || c = '：' then kwGroup rest else Option.none
    | [] => Option.none
  else Option.none

/-- `re.search` of the keyword pattern: first matching position wins. -/
def searchKw (kw : List Char) : List Char → Option (List Char)
  | [] => Option.none
  | c :: cs =>
    match matchKwAt kw (c :: cs) with
    | some g => some g
    | Option.none => searchKw kw cs

/-- One paren-family character `[()（）]`. -/
def isParenChar (c : Char) : Bool := c = '(' || c = ')' || c = '（' || c = '）'

/-- Position of the first character `stop` in the list, failing on an
earlier newline (`.` does not match newlines). -/
def findNoNewline (stop : Char) : List Char → Option Nat
  | [] => Option.none
  | c :: cs =>
    if c = stop then some 0
    else if c = '\n' then Option.none
    else (findNoNewline stop cs).map (· + 1)

/-- `re.sub(r'[()（）].*?$', '', l)`: cut from the first paren-family
character that has no newline after it. -/
def subParenToEnd (l : List Char) : List Char :=
  match findParenCut l with
  | some p => l.take p
  | Option.none => l
where
  findParenCut : List Char → Option Nat
    | [] => Option.none
    | c :: cs =>
      if isParenChar c && !cs.contains '\n' then some 0
      else (findParenCut cs).map (· + 1)

/-- The `is_name` helper of `extract_teacher_from_cell`: non-empty after
stripping, no blacklisted keyword, no digit, length 1-30. -/
def guiIsName (s : String) : Bool :=
  let s := pstrip s
  if s = "" then false
  else if ["本", "计算机", "数学", "电信工", "大数据"].any (fun k => strIn k s) then false
  else if s.data.any Char.isDigit then false
  else 1 ≤ s.length && s.length ≤ 30

/-- Candidate separators `[\/，,;]` of `extract_teacher_from_cell`. -/
def guiCandSep (c : Char) : Bool := c = '/' || c = '，' || c = ',' || c = ';'

/-- Cleaning applied to one slash-separated candidate: strip, cut a
parenthesised tail, strip again. -/
def guiCleanCand (cand : List Char) : String :=
  pstrip (String.mk (subParenToEnd (pstripList cand)))

/-- Characters excluded from the trailing-pattern group `[^/，,;\n]`. -/
def tailExcluded (c : Char) : Bool :=
  c = '/' || c = '，' || c = ',' || c = ';' || c = '\n'

/-- Group of `[:：/]\s*([^/，,;\n]+)$` after the separator: the rest of the
string after greedy whitespace, all of it allowed; on an all-whitespace
rest the backtracked group is the last character unless it is a newline. -/
def tailGroup (rest : List Char) : Option (List Char) :=
  let grp := rest.dropWhile isPySpace
  match grp with
  | _ :: _ => if grp.all (fun c => !tailExcluded c) then some grp else Option.none
  | [] =>
    match rest.getLast? with
    | some c => if c = '\n' then Option.none else some [c]
    | Option.none => Option.none

/-- `re.search(r'[:：/]\s*([^/，,;\n]+)$', text)`. -/
def searchTail : List Char → Option (List Char)
  | [] => Option.none
  | c :: cs =>
    if c = ':' || c = '：' || c = '/' then
      match tailGroup cs with
      | some g => some g
      | Option.none => searchTail cs
    else searchTail cs

/-- `extract_teacher_from_cell` of `gui_run.py`. -/
def extract_teacher_from_cell (text : String) : String :=
  if text = "" then "未知讲师"
  else
    let tryKw := fun (kw : String) =>
      match searchKw kw.data text.data with
      | some grp =>
        let n := pstrip (String.mk grp)
        if n ≠ "" then some n else Option.none
      | Option.none => Option.none
    match tryKw "讲师" with
    | some n => n
    | Option.none =>
    match tryKw "教师" with
    | some n => n
    | Option.none =>
    match tryKw "授课人" with
    | some n => n
    | Option.none =>
    let cands := splitEvery guiCandSep text.data
    match (cands.map guiCleanCand).find? guiIsName with
    | some c => c
    | Option.none =>
      match searchTail text.data with
      | some grp =>
        let name := String.mk (subParenToEnd (pstripList grp))
        if guiIsName name then name else "未知讲师"
      | Option.none => "未知讲师"

/-! ### `gui_run.normalize_time_period` -/

/-- First `(\d{1,2})` of `re.search(r'(\d{1,2})(?::|点)?', tp)`. -/
def searchHour12 : List Char → Option Nat
  | [] => Option.none
  | c :: cs =>
    if c.isDigit then
      match cs with
      | d :: _ => if d.isDigit then some (runVal [c, d]) else some (runVal [c])
      | [] => some (runVal [c])
    else searchHour12 cs

/-- The morning/afternoon/evening section-token lists of the source. -/
def morningToks : List String := ["1", "2", "3", "4", "1-2", "3-4"]
def afternoonToks : List String := ["5", "6", "7", "8", "5-6", "7-8"]
def eveningToks : List String := ["9", "10", "9-10"]

/-- `normalize_time_period` of `gui_run.py`. -/
def normalize_time_period (timePeriod sect : String) : String :=
  let sectionResult : Option String :=
    if timePeriod = "" && sect ≠ "" then
      if morningToks.any (fun s => strIn s sect) then some "上午"
      else if afternoonToks.any (fun s => strIn s sect) then some "下午"
      else if eveningToks.any (fun s => strIn s sect) then some "晚上"
      else Option.none
    else Option.none
  match sectionResult with
  | some r => r
  | Option.none =>
    if timePeriod = "" then "未知时段"
    else
      let tp := pstrip timePeriod
      if ["上午", "早"].any (fun k => strIn k tp) then "上午"
      else if ["下午", "午"].any (fun k => strIn k tp) then "下午"
      else if ["晚", "夜"].any (fun k => strIn k tp) then "晚上"
      else
        match searchHour12 tp.data with
        | some hour =>
          if 6 ≤ hour && hour ≤ 11 then "上午"
          else if 12 ≤ hour && hour ≤ 17 then "下午"
          else if 18 ≤ hour || hour ≤ 5 then "晚上"
          else "未知时段"
        | Option.none => "未知时段"

/-! ### The PDF branch of `gui_run.parse_single_file` -/

/-- One table cell as extracted by pdfplumber (a string or `None`). -/
abbrev Cell := Option String

/-- A table row / table / page worth of tables. -/
abbrev TableRow := List Cell
abbrev Table := List TableRow

/-- `str(cell).strip() if (cell and cell not in ["None", "", "/未安排"])
else ""` (time-period and sect extraction). -/
def guiCellGate (c : Cell) : String :=
  match c with
  | some s => if s = "" || s = "None" || s = "/未安排" then "" else pstrip s
  | Option.none => ""

/-- `str(cell).strip() if cell else ""` (course-cell extraction). -/
def guiCourseCell (c : Cell) : String :=
  match c with
  | some s => if s = "" then "" else pstrip s
  | Option.none => ""

/-- Character excluded from the gui course-name match `^([^★☆◆◇(（]+)`. -/
def guiNameStop (c : Char) : Bool :=
  c = '★' || c = '☆' || c = '◆' || c = '◇' || c = '(' || c = '（'

/-- Head match of the gui week alternation
`(\d+-\d+周|\d+周\(\w+\)|\d+周)`, alternatives tried in order. -/
def matchGuiWeekAt (l : List Char) : Option (List Char) :=
  let d1 := l.takeWhile Char.isDigit
  if d1.isEmpty then Option.none
  else
    let altA :=
      match l.drop d1.length with
      | '-' :: r2 =>
        let d2 := r2.takeWhile Char.isDigit
        if d2.isEmpty then Option.none
        else
          match r2.drop d2.length with
          | '周' :: _ => some (d1 ++ '-' :: d2 ++ ['周'])
          | _ => Option.none
      | _ => Option.none
    match altA with
    | some m => some m
    | Option.none =>
      match l.drop d1.length with
      | '周' :: r2 =>
        match r2 with
        | '(' :: r3 =>
          let w := r3.takeWhile isWordChar
          if w.isEmpty then some (d1 ++ ['周'])
          else
            match r3.drop w.length with
            | ')' :: _ => some (d1 ++ '周' :: '(' :: w ++ [')'])
            | _ => some (d1 ++ ['周'])
        | _ => some (d1 ++ ['周'])
      | _ => Option.none

/-- `re.search` of the gui week alternation. -/
def searchGuiWeek : List Char → Option (List Char)
  | [] => Option.none
  | c :: cs =>
    match matchGuiWeekAt (c :: cs) with
    | some m => some m
    | Option.none => searchGuiWeek cs

/-- `re.search(r'/(.*?)/', cell)`: the text between the first two slashes
that have no newline between them. -/
def searchSlashPair : List Char → Option (List Char)
  | [] => Option.none
  | c :: cs =>
    if c = '/' then
      match findNoNewline '/' cs with
      | some d => some (cs.take d)
      | Option.none => searchSlashPair cs
    else searchSlashPair cs

/-- `2 if "-" in sect else 1 if sect.isdigit() else 0`
(gui estimation of hours from the sect text). -/
def guiClassHour (sect : String) : Nat :=
  if strIn "-" sect then 2
  else if sect ≠ "" && sect.data.all Char.isDigit then 1
  else 0

/-- The seven weekday column labels. -/
def weekdays : List String :=
  ["星期一", "星期二", "星期三", "星期四", "星期五", "星期六", "星期日"]

/-- The record built by `parse_single_file` for one non-empty course
cell. -/
def guiRecord (file : String) (pageNum : Nat) (weekday timePeriod sect cc : String)
    (colIdx : Nat) : Record :=
  let courseName :=
    let nm := cc.data.takeWhile (fun c => !guiNameStop c)
    if nm.isEmpty then "未知课程" else pstrip (String.mk nm)
  let week := match searchGuiWeek cc.data with
    | some w => String.mk w
    | Option.none => "未知周次"
  let location := match searchSlashPair cc.data with
    | some g => pstrip (String.mk g)
    | Option.none => "未知地点"
  let teacher := extract_teacher_from_cell cc
  let period := normalize_time_period timePeriod sect
  [("文件来源", Val.str file),
   ("sheet/页码", Val.str ("第" ++ natStr pageNum ++ "页-" ++ weekday)),
   ("来源标识", Val.str (file ++ "|page" ++ natStr pageNum ++ "|" ++ weekday ++ "|sec" ++
      sect ++ "|col" ++ natStr colIdx)),
   ("课程名称", Val.str courseName),
   ("讲师", Val.str teacher),
   ("课时", Val.int (guiClassHour sect)),
   ("分类", Val.str (weekday ++ "-" ++ period)),
   ("周次", Val.str week),
   ("地点", Val.str location),
   ("节次", Val.str sect)]

/-- Processing of one table row of the gui PDF branch: resolve the
time-period against the carry-forward slot, then emit one record per
non-empty weekday cell.  Returns the records and the updated slot. -/
def guiRowStep (file : String) (pageNum : Nat) (slot : String) (row : TableRow) :
    List Record × String :=
  let sect := guiCellGate (row.getD 1 Option.none)
  let current := guiCellGate (row.getD 0 Option.none)
  let tpSlot : String × String :=
    if current = "" && slot ≠ "" then (slot, slot)
    else if current ≠ "" then (current, current)
    else if sect ≠ "" then
      if morningToks.any (fun s => strIn s sect) then ("上午", "上午")
      else if afternoonToks.any (fun s => strIn s sect) then ("下午", "下午")
      else if eveningToks.any (fun s => strIn s sect) then ("晚上", "晚上")
      else ("未知时段", slot)
    else ("未知时段", slot)
  let recs := (List.range 7).flatMap (fun i =>
    let colIdx := i + 2
    if row.length ≤ colIdx then []
    else
      let cc := guiCourseCell (row.getD colIdx Option.none)
      if cc = "" || cc = "/未安排" || cc = "None" || cc = " " then []
      else [guiRecord file pageNum (weekdays.getD i "") tpSlot.1 sect cc colIdx])
  (recs, tpSlot.2)

/-- The row loop over one table (`for row_idx, row in enumerate(table)`),
skipping row 0 and rows with fewer than 3 cells, threading the slot. -/
def guiRowsGo (file : String) (pageNum : Nat) (slot : String) (idx : Nat) :
    List TableRow → List Record × String
  | [] => ([], slot)
  | row :: rest =>
    if idx = 0 then guiRowsGo file pageNum slot (idx + 1) rest
    else if row.isEmpty || row.length < 3 then guiRowsGo file pageNum slot (idx + 1) rest
    else
      let step := guiRowStep file pageNum slot row
      let tail := guiRowsGo file pageNum step.2 (idx + 1) rest
      (step.1 ++ tail.1, tail.2)

/-- The table loop of one page: the slot is initialised once per page
(before `for table in tables`) and carried from table to table. -/
def guiTablesGo (file : String) (pageNum : Nat) (slot : String) :
    List Table → List Record × String
  | [] => ([], slot)
  | t :: ts =>
    let step := guiRowsGo file pageNum slot 0 t
    let tail := guiTablesGo file pageNum step.2 ts
    (step.1 ++ tail.1, tail.2)

/-- One page of the gui PDF branch (`if not tables: continue`, then
`last_valid_time_period = ""`, then the table loop). -/
def guiPage (file : String) (pageNum : Nat) (tables : List Table) : List Record :=
  if tables.isEmpty then [] else (guiTablesGo file pageNum "" tables).1

/-- All pages of the gui PDF branch, numbered from 1. -/
def guiPages (file : String) (n : Nat) : List (List Table) → List Record
  | [] => []
  | p :: ps => guiPage file n p ++ guiPages file (n + 1) ps

/-- The PDF branch of `parse_single_file` of `gui_run.py`, on the tables
extracted per page. -/
def gui_parse_pdf (file : String) (pages : List (List Table)) : List Record :=
  guiPages file 1 pages

/-! ### `file_parser.parse_pdf`: header detection and cell recovery -/

/-- The header/title tokens of `parse_pdf`. -/
def headerTokens : List String :=
  ["星期一", "星期二", "星期三", "星期四", "星期五", "星期六", "星期日",
   "节次", "时间段", "时间", "序号", "周次", "节", "上课时间"]

/-- `is_header_row` of `src/file_parser.py`: a row is a header when at
least `max(1, n/2)` of its `n` non-empty cells are known header tokens or
start with `星期`. -/
def is_header_row (row : TableRow) : Bool :=
  if row.isEmpty then false
  else
    let nonEmpty := row.filterMap (fun c =>
      match c with
      | some s => if s ≠ "" && pstrip s ≠ "" then some s else Option.none
      | Option.none => Option.none)
    if nonEmpty.isEmpty then false
    else
      let cnt := (nonEmpty.filter (fun s =>
        headerTokens.contains (pstrip s) || startsWith (pstrip s) "星期")).length
      decide (max 1 (nonEmpty.length / 2) ≤ cnt)

/-- The marker-symbol → category mapping, in source (insertion) order. -/
def categoryMap : List (String × String) :=
  [("★", "理论"), ("☆", "实验"), ("◆", "上机"), ("◇", "实践")]

/-- Head match of the cell week pattern `(\d+-\d+周(?:\(单\)|\(双\))?)`. -/
def matchFpWeekAt (l : List Char) : Option (List Char) :=
  let d1 := l.takeWhile Char.isDigit
  if d1.isEmpty then Option.none
  else
    match l.drop d1.length with
    | '-' :: r2 =>
      let d2 := r2.takeWhile Char.isDigit
      if d2.isEmpty then Option.none
      else
        match r2.drop d2.length with
        | '周' :: r3 =>
          let base := d1 ++ '-' :: d2 ++ ['周']
          if ['(', '单', ')'].isPrefixOf r3 then some (base ++ ['(', '单', ')'])
          else if ['(', '双', ')'].isPrefixOf r3 then some (base ++ ['(', '双', ')'])
          else some base
        | _ => Option.none
    | _ => Option.none

/-- `re.search` of the cell week pattern. -/
def searchFpWeek : List Char → Option (List Char)
  | [] => Option.none
  | c :: cs =>
    match matchFpWeekAt (c :: cs) with
    | some m => some m
    | Option.none => searchFpWeek cs

/-- The class `[一-鿿\w\-]` of the location pattern. -/
def isLocA (c : Char) : Bool := isCJK c || isWordChar c || c = '-'

/-- The location marker characters `(楼|室|教|号)`. -/
def isLocMarker (c : Char) : Bool := c = '楼' || c = '室' || c = '教' || c = '号'

/-- Head match of `([一-鿿\w\-]{2,20}(楼|室|教|号)[\w\-\d]*)`: the greedy
bounded class backtracks until a marker character follows, then a greedy
word/dash tail is appended. -/
def matchFpLocAt (l : List Char) : Option (List Char) :=
  match greedyDown
      (fun k => decide (2 ≤ k) && (l.take k).all isLocA && isLocMarker ((l.drop k).headD ' '))
      (min 20 l.length) with
  | some k =>
    let tail := (l.drop (k + 1)).takeWhile (fun c => isWordChar c || c = '-')
    some (l.take (k + 1) ++ tail)
  | Option.none => Option.none

/-- `re.search` of the location pattern. -/
def searchFpLoc : List Char → Option (List Char)
  | [] => Option.none
  | c :: cs =>
    match matchFpLocAt (c :: cs) with
    | some m => some m
    | Option.none => searchFpLoc cs

/-- Does `\d+周` occur (a digit immediately followed by `周`)? -/
def hasAdjDigit (mark : Char) : List Char → Bool
  | a :: b :: t => (a.isDigit && b = mark) || hasAdjDigit mark (b :: t)
  | _ => false

/-- Does `^\d{1,2}:` match at the start? -/
def timeColonPrefix : List Char → Bool
  | a :: b :: rest =>
    a.isDigit && (b = ':' || (b.isDigit && rest.headD ' ' = ':'))
  | _ => false

/-- `\w{0,6}` then `本`, with up to `k` class characters left to spend. -/
def upTo6WordThenBen : Nat → List Char → Bool
  | _, [] => false
  | 0, c :: _ => c = '本'
  | k + 1, c :: cs => c = '本' || (isWordChar c && upTo6WordThenBen k cs)

/-- Does `23\w{0,6}本` occur anywhere? -/
def has23wBen : List Char → Bool
  | [] => false
  | c :: cs =>
    (match c :: cs with
     | '2' :: '3' :: rest => upTo6WordThenBen 6 rest
     | _ => false) || has23wBen cs

/-- Does `-?\d{3,}` occur (three consecutive digits)? -/
def has3Digits : List Char → Bool
  | a :: b :: c :: t => (a.isDigit && b.isDigit && c.isDigit) || has3Digits (b :: c :: t)
  | _ => false

/-- Segment filter of the candidate-teacher loop of `parse_course_cell`. -/
def fpTeacherCandidate (pl : List Char) : Option String :=
  let p := String.mk pl
  if hasAdjDigit '周' pl || hasAdjDigit '节' pl then Option.none
  else if ['楼', '室', '教', '号'].any (fun t => pl.contains t) then Option.none
  else if startsWith p "星期" || timeColonPrefix pl then Option.none
  else if strIn "未安排" p || has23wBen pl || has3Digits pl then Option.none
  else if 1 ≤ pl.length && pl.length ≤ 30 then some p
  else Option.none

/-- Collapse runs of `[()（）/:；,，\n]` to single spaces
(`re.sub(r'[()（）/:；,，\n]+', ' ', ct)`). -/
def isFpSep (c : Char) : Bool :=
  c = '(' || c = ')' || c = '（' || c = '）' || c = '/' || c = ':' || c = '；' ||
  c = ',' || c = '，' || c = '\n'

/-- Replace runs of characters satisfying `p` by one space each. -/
def collapseRuns (p : Char → Bool) (l : List Char) : List Char :=
  ((reSplitRuns p l).intersperse [' ']).flatten

/-- One scanning step of `re.sub(r'[-–—]\d+|\b23\w{0,6}\b', '', name)`:
`prevWord` is the `\w`-ness of the previous character of the original
string (for the word boundaries around the second alternative). -/
def sub23Scan : Nat → Bool → List Char → List Char
  | 0, _, l => l
  | _ + 1, _, [] => []
  | f + 1, prevWord, c :: cs =>
    if (c = '-' || c = '–' || c = '—') && !(cs.takeWhile Char.isDigit).isEmpty then
      sub23Scan f true (cs.drop (cs.takeWhile Char.isDigit).length)
    else if !prevWord && c = '2' && cs.headD ' ' = '3' then
      let rest := cs.drop 1
      match greedyDown
          (fun k => (rest.take k).all isWordChar &&
            !isWordChar ((rest.drop k).headD ' ')) (min 6 rest.length) with
      | some k => sub23Scan f true (rest.drop k)
      | Option.none => c :: sub23Scan f (isWordChar c) cs
    else c :: sub23Scan f (isWordChar c) cs

/-- `re.sub(r'[-–—]\d+|\b23\w{0,6}\b', '', name)`. -/
def subDashNumOr23 (l : List Char) : List Char := sub23Scan l.length false l

/-- The hours-from-section estimation block of `parse_course_cell`
(`int()` on digit runs cannot fail, so the `except` arm is dead). -/
def fpClassHour (sect : String) : Nat :=
  if sect = "" then 0
  else if strIn "-" sect then
    match digitRuns sect with
    | a :: b :: _ => max 1 ((((b : Int) - (a : Int)).natAbs + 1) / 2)
    | _ => 0
  else if (digitRuns sect).isEmpty then 0
  else 1

/-- The field-recovery computation of `parse_course_cell` of
`src/file_parser.py`: category, week, location, teacher, course name and
hours of one cell, returned as (course name, the record literal). -/
def fpCellCore (cellText timePeriod sect weekday : String) : String × Record :=
  let catStep :=
    match categoryMap.find? (fun sc => strIn sc.1 cellText) with
    | some sc => (sc.2, pstrip (replaceAll cellText sc.1 ""))
    | Option.none => ("", cellText)
  let category := catStep.1
  let ct1 := catStep.2
  let week := match searchFpWeek ct1.data with
    | some w => String.mk w
    | Option.none => ""
  let ct2 := if week ≠ "" then pstrip (replaceAll ct1 week "") else ct1
  let location := match searchFpLoc ct2.data with
    | some g => pstrip (String.mk g)
    | Option.none => ""
  let ct3 := if location ≠ "" then pstrip (replaceAll ct2 location "") else ct2
  let parts := ((splitEvery teacherSepChar ct3.data).map pstripList).filter (fun p => !p.isEmpty)
  let probable := match parts.head? with
    | some p => String.mk p
    | Option.none => ""
  let candidateTeachers := parts.filterMap fpTeacherCandidate
  let teacherSel : Option String :=
    match candidateTeachers.reverse.find? (fun p => nameShape 2 6 p) with
    | some p => some p
    | Option.none =>
      candidateTeachers.reverse.find? (fun p => p ≠ probable && !p.data.any Char.isDigit)
  let teacher := match teacherSel with
    | some p => p
    | Option.none => "未知讲师"
  let ct4 := match teacherSel with
    | some p => pstrip (replaceAll ct3 p "")
    | Option.none => ct3
  let courseName0 :=
    if probable ≠ "" && !startsWith probable "(" && 1 < probable.length then probable
    else pstrip (String.mk (collapseRuns isFpSep ct4.data))
  let courseName := pstrip (String.mk (subDashNumOr23 courseName0.data))
  (courseName,
   [("课程名称", Val.str courseName),
    ("讲师", Val.str teacher),
    ("课时", Val.int (fpClassHour sect)),
    ("分类", Val.str category),
    ("周次", Val.str week),
    ("地点", Val.str location),
    ("节次", Val.str sect),
    ("时间段", Val.str (weekday ++ "-" ++ timePeriod)),
    ("来源原文_课程名", Val.str cellText)])

/-- `parse_course_cell` of `src/file_parser.py`: the recovered record, or
nothing when the residual course name is empty, a header token, or a
weekday (`if not course_name or course_name in header_tokens or
course_name.startswith('星期')`). -/
def parse_course_cell (cellText timePeriod sect weekday : String) : Option Record :=
  let cr := fpCellCore cellText timePeriod sect weekday
  if cr.1 = "" || headerTokens.contains cr.1 || startsWith cr.1 "星期" then Option.none
  else some cr.2

/-- Is a pdfplumber cell blank (`cell is None or cell.strip() == ""`)? -/
def cellBlank (c : Cell) : Bool :=
  match c with
  | some s => pstrip s = ""
  | Option.none => true

/-- `cell.strip() if cell else ""`. -/
def cellStripped (c : Cell) : String :=
  match c with
  | some s => if s = "" then "" else pstrip s
  | Option.none => ""

/-- One content row of `parse_pdf` (rows after index 0): skip blank and
header rows, read time period and section from columns 0/1, and recover a
record per non-`未安排` weekday cell; provenance keys are appended as by
`course_info.update(...)`. -/
def fpRow (file : String) (pageNum : Nat) (row : TableRow) : List Record :=
  if row.isEmpty || row.all cellBlank then []
  else if is_header_row row then []
  else
    let timePeriod := cellStripped (row.getD 0 Option.none)
    let sect := if 1 < row.length then cellStripped (row.getD 1 Option.none) else ""
    (List.range 7).flatMap (fun i =>
      let colIdx := i + 2
      if row.length ≤ colIdx then []
      else
        let cell := cellStripped (row.getD colIdx Option.none)
        if cell = "" || pstrip cell = "未安排" || pstrip cell = "未 安排" then []
        else
          match parse_course_cell cell timePeriod sect (weekdays.getD i "") with
          | some rec =>
            [rec ++
              [("文件来源", Val.str file),
               ("sheet/页码", Val.str ("第" ++ natStr pageNum ++ "页-" ++ weekdays.getD i "")),
               ("来源标识", Val.str (file ++ "|page" ++ natStr pageNum ++ "|" ++
                  weekdays.getD i "" ++ "|sec" ++ sect ++ "|col" ++ natStr colIdx))]]
          | Option.none => [])

/-- The row loop of `parse_pdf` over one page's (merged) table:
`for row_idx, row in enumerate(table[1:], 2)`. -/
def fpTable (file : String) (pageNum : Nat) (table : List TableRow) : List Record :=
  (table.drop 1).flatMap (fpRow file pageNum)

/-- `parse_pdf` of `src/file_parser.py` over the per-page row tables
(pages numbered from 1; the pdfplumber extraction itself, including the
merging of `extract_tables` when `extract_table` is empty, is the I/O
collaborator and is represented by the row lists it yields). -/
def fpPages (file : String) (n : Nat) : List (List TableRow) → List Record
  | [] => []
  | t :: ts => fpTable file n t ++ fpPages file (n + 1) ts

/-- `parse_pdf`, pages numbered from 1. -/
def fp_parse_pdf (file : String) (pages : List (List TableRow)) : List Record :=
  fpPages file 1 pages

/-! ### `gui_run.stat_courses` -/

/-- Is the key a column of the frame built from the records? -/
def hasCol (rs : List Record) (k : String) : Bool := rs.any (fun r => rhas r k)

/-- `pd.to_numeric(v, errors='coerce').fillna(0).astype(int)` on one value
(numeric strings are all-digit in this data; anything unparseable
coerces to 0). -/
def toNumericInt (v : Val) : Int :=
  match v with
  | .int n => n
  | .str s => if matchAllDigits s.data then runVal s.data else 0
  | .none => 0

/-- The per-record `课时_标准化` column of `stat_courses`: taken as-is when
present among the columns, otherwise derived from `课时`. -/
def hoursStdOf (rs : List Record) (r : Record) : Int :=
  if !hasCol rs "课时_标准化" && hasCol rs "课时" then toNumericInt (rget r "课时")
  else toNumericInt (rget r "课时_标准化")

/-- `df["分类"].fillna("未分类")` (and the all-`未分类` column added when the
column is absent). -/
def categoryFill (rs : List Record) (r : Record) : Val :=
  if hasCol rs "分类" then
    let v := rget r "分类"
    if v = Val.none then Val.str "未分类" else v
  else Val.str "未分类"

/-- `series.replace({None: "", "": "", "未知讲师": ""})` on one value. -/
def teacherNorm (v : Val) : Val :=
  if v = Val.none || v = Val.str "" || v = Val.str "未知讲师" then Val.str "" else v

/-- Week tokens of one record (`parse_week_numbers(str(val))` after
`fillna("")`). -/
def weekTokensOf (r : Record) : List String :=
  let v := rget r "周次"
  parse_week_numbers (if v = Val.none then "" else v.pyStr)

/-- Week tokens as counted into `week_counts` (a record with no tokens
counts into the reserved `未知周次` bucket). -/
def weekDisplayTokens (r : Record) : List String :=
  if (weekTokensOf r).isEmpty then ["未知周次"] else weekTokensOf r

/-- The `total_stats` dictionary of `stat_courses` (the returned `df` is
presentation data and is not part of the statistics). -/
structure GuiStats where
  totalCourses : Nat
  totalHours : Int
  teacherCount : Nat
  categoryCount : Nat
  weekKinds : Nat
  teacherDist : Val → Nat
  categoryDist : Val → Nat
  weekDist : String → Nat

/-- The statistics computed by `stat_courses` of `gui_run.py`: every
aggregate is taken over `df_valid`, the records whose standardised hours
are positive. -/
def stat_courses_stats (rs : List Record) : Option GuiStats :=
  if rs.isEmpty then Option.none
  else
    let valid := rs.filter (fun r => 0 < hoursStdOf rs r)
    some
      { totalCourses := valid.length
        totalHours := (valid.map (hoursStdOf rs)).sum
        teacherCount :=
          (((valid.map (fun r => teacherNorm (rget r "讲师"))).filter
            (fun v => v ≠ Val.str "")).dedup).length
        categoryCount := ((valid.map (categoryFill rs)).dedup).length
        weekKinds :=
          if hasCol rs "周次" then ((valid.flatMap weekDisplayTokens).dedup).length else 0
        teacherDist := fun v =>
          if v = Val.none then 0 else (valid.map (fun r => rget r "讲师")).count v
        categoryDist := fun v =>
          if v = Val.none then 0 else (valid.map (categoryFill rs)).count v
        weekDist := fun k =>
          if hasCol rs "周次" then (valid.flatMap weekDisplayTokens).count k else 0 }

/-! ### The aggregate block of `stat_export.stat_and_export` -/

/-- The four numbers of the `总体统计` sheet of `stat_and_export`. -/
structure ExportTotals where
  totalCourses : Nat
  totalHours : Int
  teacherCount : Nat
  categoryCount : Nat
deriving DecidableEq, Repr

/-- The aggregate computation of `stat_and_export` of
`src/stat_export.py` (lines 10-36): `total_courses = len(df)` over all
records, hours summed only when a `课时_标准化` column exists, teacher and
category distinct counts over all records. -/
def stat_and_export_totals (rs : List Record) : Option ExportTotals :=
  if rs.isEmpty then Option.none
  else
    some
      { totalCourses := rs.length
        totalHours :=
          if hasCol rs "课时_标准化" then (rs.map (fun r => toNumericInt (rget r "课时_标准化"))).sum
          else 0
        teacherCount :=
          if hasCol rs "讲师" then
            (((rs.map (fun r => teacherNorm (rget r "讲师"))).filter
              (fun v => v ≠ Val.str "")).dedup).length
          else 0
        categoryCount :=
          if hasCol rs "分类" then
            (((rs.map (fun r => rget r "分类")).filter (fun v => v ≠ Val.none)).dedup).length
          else 0 }

/-! ### Definitions written from the spec's words, for comparison -/

/-- The hours-from-section formula exactly as the spec states it
(spec §4.1): `max(1, (|b-a|+1)//2)` for a hyphenated range `a-b`, `1` for
a single numeric section, `0` for an absent section; other shapes are not
covered by the spec sentence. -/
def specSectionHours (sect : String) : Option Nat :=
  if sect = "" then some 0
  else
    match matchIntRange sect.data with
    | some ab => some (max 1 ((((ab.2 : Int) - (ab.1 : Int)).natAbs + 1) / 2))
    | Option.none => if matchAllDigits sect.data then some 1 else Option.none

/-- One gui page processed as the spec's carry-forward contract words it
(spec §4.2): the slot is reset at the start of every new table rather than
once per page. -/
def specTableScopedPage (file : String) (pageNum : Nat) (tables : List Table) : List Record :=
  if tables.isEmpty then []
  else tables.flatMap (fun t => (guiRowsGo file pageNum "" 0 t).1)

/-- The spec-worded per-table variant over all pages. -/
def specTableScopedParse (file : String) (n : Nat) : List (List Table) → List Record
  | [] => []
  | p :: ps => specTableScopedPage file n p ++ specTableScopedParse file (n + 1) ps

/-- The column shape every `clean_courses` output record has (proved as
claim C10): the statistics columns are present and the legacy
`课时_标准化` column is not. -/
def cleanedShape (r : Record) : Bool :=
  rhas r "课时" && rhas r "讲师" && rhas r "分类" && rhas r "周次" && !rhas r "课时_标准化"

/-! ### Concrete inputs used by counterexamples and witnesses -/

/-- The table-header row of the header-rejection property. -/
def hdr4Row : TableRow := [some "星期一", some "星期二", some "节次", some "时间段"]

/-- One page with two tables; the first table remembers the time period
`晚上`, the first content row of the second table has an empty (merged)
time-period cell. -/
def c3pages : List (List Table) :=
  [[[[some "时间段", some "节次", some "星期一"],
     [some "晚上", some "9-10", some "数学课"]],
    [[some "时间段", some "节次", some "星期一"],
     [Option.none, some "5-6", some "物理课"]]]]

/-- Raw records cleaning to one two-hour and one zero-hour record. -/
def c2raws : List Record :=
  [[("课程名称", Val.str "高数甲"), ("讲师", Val.str "张三"),
    ("课时", Val.int 2), ("周次", Val.str "1-2周")],
   [("课程名称", Val.str "大学物理"), ("讲师", Val.str "李四"),
    ("课时", Val.int 0), ("周次", Val.str "3-4周")]]

/-- Two cleaned-shape records, the second with zero hours. -/
def c2cleanA : Record :=
  [("文件来源", Val.str ""), ("sheet/页码", Val.str ""), ("课程名称", Val.str "高数甲"),
   ("讲师", Val.str "张三"), ("课时", Val.int 2), ("分类", Val.str "未知"),
   ("周次", Val.str "1-2周"), ("地点", Val.str ""), ("节次", Val.str ""),
   ("时间段", Val.str ""), ("来源原文_课程名", Val.str "")]
def c2cleanZ : Record :=
  [("文件来源", Val.str ""), ("sheet/页码", Val.str ""), ("课程名称", Val.str "大学物理"),
   ("讲师", Val.str "李四"), ("课时", Val.int 0), ("分类", Val.str "未知"),
   ("周次", Val.str "3-4周"), ("地点", Val.str ""), ("节次", Val.str ""),
   ("时间段", Val.str ""), ("来源原文_课程名", Val.str "")]

/-- A raw record whose teacher can only be recovered from the legacy
`来源原文` field, which cleaning drops. -/
def c9raw : Record :=
  [("课程名称", Val.str "高数高数"), ("讲师", Val.str ""), ("来源原文", Val.str "王课")]

/-! ## Lemmas: characters, decimal rendering and digit runs -/

theorem charOfNat_toNat (n : Nat) (h : n < 55296) : (Char.ofNat n).toNat = n := by
  unfold Char.ofNat
  rw [dif_pos (Or.inl (by omega))]
  rfl

theorem isDigit_iff (c : Char) : c.isDigit = true ↔ 48 ≤ c.toNat ∧ c.toNat ≤ 57 := by
  simp [Char.isDigit, Char.toNat, UInt32.le_def, BitVec.le_def, UInt32.toNat]

theorem lowerChar_isDigit (c : Char) : (lowerChar c).isDigit = c.isDigit := by
  unfold lowerChar
  split
  case isTrue h =>
    simp only [Bool.and_eq_true, decide_eq_true_eq] at h
    have h1 : (Char.ofNat (c.toNat + 32)).toNat = c.toNat + 32 := charOfNat_toNat _ (by
      have := c.val.toBitVec.isLt
      simp only [Char.toNat, UInt32.toNat] at *
      omega)
    rw [Bool.eq_iff_iff, isDigit_iff, isDigit_iff, h1]
    omega
  case isFalse h => rfl

theorem lowerChar_digit_fix (c : Char) (h : c.isDigit = true) : lowerChar c = c := by
  rw [isDigit_iff] at h
  unfold lowerChar
  rw [if_neg]
  simp only [Bool.and_eq_true, decide_eq_true_eq, not_and]
  omega

theorem digitChar_toNat (d : Nat) (h : d < 10) : (digitChar d).toNat = 48 + d := by
  unfold digitChar
  exact charOfNat_toNat _ (by omega)

theorem digitChar_isDigit (d : Nat) (h : d < 10) : (digitChar d).isDigit = true := by
  rw [isDigit_iff, digitChar_toNat d h]
  omega

theorem natDigitsAux_lt (f : Nat) : ∀ (n : Nat), ∀ d ∈ natDigitsAux f n, d < 10 := by
  induction f with
  | zero => intro n d hd; simp [natDigitsAux] at hd
  | succ f ih =>
    intro n d hd
    cases n with
    | zero => simp [natDigitsAux] at hd
    | succ m =>
      simp only [natDigitsAux, List.mem_cons] at hd
      rcases hd with rfl | hd
      · exact Nat.mod_lt _ (by omega)
      · exact ih _ d hd

theorem natDigitsAux_val (f : Nat) :
    ∀ (n : Nat), n ≤ f → (natDigitsAux f n).foldr (fun d a => 10 * a + d) 0 = n := by
  induction f with
  | zero => intro n hn; interval_cases n; rfl
  | succ f ih =>
    intro n hn
    cases n with
    | zero => rfl
    | succ m =>
      have hdiv : (m + 1) / 10 ≤ f := by
        have := Nat.div_lt_self (Nat.succ_pos m) (by omega : 1 < 10)
        omega
      simp only [natDigitsAux, List.foldr_cons, ih _ hdiv]
      omega

theorem runVal_rev_map (ds : List Nat) (h : ∀ d ∈ ds, d < 10) :
    runVal ((ds.map digitChar).reverse) = ds.foldr (fun d a => 10 * a + d) 0 := by
  unfold runVal
  rw [List.foldl_reverse, List.foldr_map]
  induction ds with
  | nil => rfl
  | cons d ds ih =>
    simp only [List.foldr_cons]
    rw [ih (fun x hx => h x (List.mem_cons_of_mem _ hx)),
      digitChar_toNat d (h d (List.mem_cons_self _ _))]
    omega

theorem runVal_natChars (n : Nat) : runVal (natChars n) = n := by
  by_cases h : n = 0
  · subst h; rfl
  · unfold natChars natDigits
    rw [if_neg h, runVal_rev_map _ (natDigitsAux_lt _ _), natDigitsAux_val n n le_rfl]

theorem natChars_digits (n : Nat) : ∀ c ∈ natChars n, c.isDigit = true := by
  unfold natChars
  split
  · intro c hc
    simp only [List.mem_singleton] at hc
    subst hc; rfl
  · intro c hc
    rw [List.mem_reverse, List.mem_map] at hc
    obtain ⟨d, hd, rfl⟩ := hc
    exact digitChar_isDigit d (natDigitsAux_lt _ _ d hd)

theorem natChars_ne_nil (n : Nat) : natChars n ≠ [] := by
  unfold natChars
  split
  · simp
  · simp only [ne_eq, List.reverse_eq_nil_iff, List.map_eq_nil_iff]
    cases n with
    | zero => simp_all
    | succ m => simp [natDigits, natDigitsAux]

theorem digitRunsAux_all (l : List Char) (h : ∀ c ∈ l, c.isDigit = true) :
    ∀ cur, digitRunsAux cur l =
      if (cur.reverse ++ l).isEmpty then [] else [cur.reverse ++ l] := by
  induction l with
  | nil => intro cur; simp [digitRunsAux]
  | cons c cs ih =>
    intro cur
    rw [digitRunsAux, h c (List.mem_cons_self _ _),
      ih (fun x hx => h x (List.mem_cons_of_mem _ hx)) (c :: cur)]
    simp [List.reverse_cons, List.append_assoc]

theorem digitRunsAux_break (l₁ : List Char) (c : Char) (l₂ : List Char)
    (h1 : ∀ x ∈ l₁, x.isDigit = true) (hc : c.isDigit = false) :
    ∀ cur, digitRunsAux cur (l₁ ++ c :: l₂) =
      (if (cur.reverse ++ l₁).isEmpty then [] else [cur.reverse ++ l₁]) ++
        digitRunsAux [] l₂ := by
  induction l₁ with
  | nil =>
    intro cur
    rw [List.nil_append, digitRunsAux, hc]
    cases cur with
    | nil => simp
    | cons x xs => simp
  | cons d ds ih =>
    intro cur
    rw [List.cons_append, digitRunsAux, h1 d (List.mem_cons_self _ _),
      ih (fun x hx => h1 x (List.mem_cons_of_mem _ hx)) (d :: cur)]
    simp [List.reverse_cons, List.append_assoc]

theorem digitRunsAux_map_lower (l : List Char) :
    ∀ cur, digitRunsAux cur (l.map lowerChar) = digitRunsAux cur l := by
  induction l with
  | nil => intro cur; rfl
  | cons c cs ih =>
    intro cur
    rw [List.map_cons, digitRunsAux, digitRunsAux, lowerChar_isDigit]
    by_cases hd : c.isDigit = true
    · rw [hd, lowerChar_digit_fix c hd]
      simp only [if_pos]
      exact ih (c :: cur)
    · simp only [Bool.not_eq_true] at hd
      rw [hd]
      simp only [Bool.false_eq_true, if_false]
      split <;> rw [ih]

theorem digitRuns_natStr (n : Nat) : digitRuns (natStr n) = [n] := by
  unfold digitRuns natStr
  rw [show (String.mk (natChars n)).data = natChars n from rfl,
    digitRunsAux_all _ (natChars_digits n) []]
  simp [natChars_ne_nil n, List.isEmpty_iff, runVal_natChars n]

/-! ## Lemmas: `_parse_hours` -/

theorem parse_hours_int_nonneg (n : Int) (h : 0 ≤ n) : parse_hours (Val.int n) = n.toNat := by
  by_cases h0 : n = 0
  · subst h0; rfl
  · have ht : (Val.int n).truthy = true := by
      simp [Val.truthy, h0]
    unfold parse_hours
    rw [ht]
    simp only [Bool.not_true, Bool.false_and, Bool.false_eq_true, if_false]
    have hs : (Val.int n).pyStr = natStr n.toNat := by
      simp [Val.pyStr, intStr, not_lt.mpr h]
    rw [hs, show (natStr n.toNat).data = natChars n.toNat from rfl,
      digitRunsAux_map_lower _ [], digitRunsAux_all _ (natChars_digits _) []]
    simp [natChars_ne_nil n.toNat, List.isEmpty_iff, runVal_natChars]

theorem parse_hours_str_runs (s : String) :
    parse_hours (Val.str s) =
      match digitRuns s with
      | [] => 0
      | [n] => n
      | ns => ns.foldl max 0 := by
  by_cases hs : s = ""
  · subst hs; rfl
  · have ht : (Val.str s).truthy = true := by simp [Val.truthy, hs]
    unfold parse_hours
    rw [ht]
    simp only [Bool.not_true, Bool.false_and, Bool.false_eq_true, if_false]
    rw [show (Val.str s).pyStr = s from rfl, digitRunsAux_map_lower _ []]
    rfl

theorem parse_hours_str_max (s : String) (h : digitRuns s ≠ []) :
    parse_hours (Val.str s) = (digitRuns s).foldl max 0 := by
  rw [parse_hours_str_runs]
  rcases hr : digitRuns s with _ | ⟨a, _ | ⟨b, t⟩⟩
  · exact absurd hr h
  · simp [Nat.zero_max]
  · rfl

theorem parse_hours_str_single (s : String) (v : Nat) (h : digitRuns s = [v]) :
    parse_hours (Val.str s) = v := by
  rw [parse_hours_str_max s (by simp [h]), h]
  simp [Nat.zero_max]

theorem parse_hours_str_none (s : String) (h : digitRuns s = []) :
    parse_hours (Val.str s) = 0 := by
  rw [parse_hours_str_runs, h]

/-- C4: hours parsing.  A (non-negative, as produced everywhere in this
program) numeric value is accepted directly; a string with exactly one
digit run parses to that run's integer value; a string with several digit
runs parses to their maximum (`foldl max 0` is Python's `max` on a
non-empty list of naturals); a string with no digit run parses to 0; and
the spec's example `"36课时(12实验)"` parses to 36. -/
theorem C4_hours_parsing (n : Int) (hn : 0 ≤ n) (s : String) :
    parse_hours (Val.int n) = n.toNat ∧
    (∀ v, digitRuns s = [v] → parse_hours (Val.str s) = v) ∧
    (digitRuns s ≠ [] → parse_hours (Val.str s) = (digitRuns s).foldl max 0) ∧
    (digitRuns s = [] → parse_hours (Val.str s) = 0) ∧
    parse_hours (Val.str "36课时(12实验)") = 36 :=
  ⟨parse_hours_int_nonneg n hn,
   fun v hv => parse_hours_str_single s v hv,
   parse_hours_str_max s,
   parse_hours_str_none s,
   by decide⟩

/-- C4 witness: the theorem applied at the numeric input 36 and the
two-run string `"2-4 小时"`. -/
theorem C4_hours_parsing_witness :
    parse_hours (Val.int 36) = (36 : Int).toNat ∧ parse_hours (Val.str "2-4 小时") = 4 := by
  have h := C4_hours_parsing 36 (by decide) "2-4 小时"
  exact ⟨h.1, (h.2.2.1 (by decide)).trans (by decide)⟩

/-! ## Lemmas: `parse_week_numbers` -/

/-- C5: week-range parser.  The four spec round-trip examples hold, a
segment whose base matches `(\d+)-(\d+)` with descending bounds is emitted
with the bounds swapped into ascending order (with its parity suffix), and
a segment matching neither shape is silently dropped. -/
theorem C5_week_roundtrip (p : List Char) (base : List Char) (parity : String)
    (hsplit : weekSegSplit p = (base, parity)) :
    parse_week_numbers "1-16周" = ["1-16"] ∧
    parse_week_numbers "1-12周(单)" = ["1-12(单)"] ∧
    parse_week_numbers "3周,5周" = ["3", "5"] ∧
    parse_week_numbers "" = [] ∧
    (∀ a b : Nat, matchIntRange base = some (a, b) → b < a →
        weekSegmentTokens p = [natStr b ++ "-" ++ natStr a ++ parity]) ∧
    (matchIntRange base = Option.none → matchAllDigits base = false →
        weekSegmentTokens p = []) := by
  refine ⟨by decide, by decide, by decide, rfl, ?_, ?_⟩
  · intro a b hm hba
    cases p with
    | nil =>
      have hb : base = [] := by
        have := congrArg Prod.fst hsplit
        simpa [weekSegSplit] using this.symm
      rw [hb] at hm
      simp [matchIntRange] at hm
    | cons c cs =>
      simp only [weekSegmentTokens, List.isEmpty_cons, Bool.false_eq_true, if_false, hsplit, hm]
      rw [if_pos hba]
  · intro hnone hall
    cases p with
    | nil => rfl
    | cons c cs =>
      simp only [weekSegmentTokens, List.isEmpty_cons, Bool.false_eq_true, if_false, hsplit,
        hnone, hall]

/-- C5 witness: the theorem applied at the descending segment
`"16-1(单)"` and the non-matching segment `"abc"`. -/
theorem C5_week_roundtrip_witness :
    weekSegmentTokens "16-1(单)".data = ["1-16(单)"] ∧ weekSegmentTokens "abc".data = [] := by
  constructor
  · have h := (C5_week_roundtrip "16-1(单)".data "16-1".data "(单)"
      (by decide)).2.2.2.2.1 16 1 (by decide) (by decide)
    rw [h]
    decide
  · exact (C5_week_roundtrip "abc".data "abc".data ""
      (by decide)).2.2.2.2.2 (by decide) (by decide)

/-! ## Lemmas: `clean_courses` deduplication -/

theorem outTripleKey_cleanedRecord (cfg : Config) (r : Record) :
    outTripleKey (cleanedRecord cfg r) = tripleOfKey (dedupKeyOf r) := rfl

theorem tripleOfKey_inj {k₁ k₂ : DedupKey} (h : tripleOfKey k₁ = tripleOfKey k₂) :
    k₁ = k₂ := by
  rcases k₁ with ⟨n₁, w₁, s₁⟩
  rcases k₂ with ⟨n₂, w₂, s₂⟩
  simp only [tripleOfKey, Prod.mk.injEq, Val.str.injEq] at h
  simp [h.1, h.2.1, h.2.2]

/-- Every record emitted by the clean loop is the image of the first valid
input record carrying its `(name, week, section)` key, and that key is not
among the already-seen keys. -/
theorem cleanGo_sound (cfg : Config) :
    ∀ (rs : List Record) (seen : List DedupKey) (c : Record), c ∈ cleanGo cfg rs seen →
      ∃ r, c = cleanedRecord cfg r ∧ validRaw r = true ∧ dedupKeyOf r ∉ seen ∧
        rs.find? (fun x => validRaw x && decide (dedupKeyOf x = dedupKeyOf r)) = some r := by
  intro rs
  induction rs with
  | nil => intro seen c hc; simp [cleanGo] at hc
  | cons r rs ih =>
    intro seen c hc
    rw [cleanGo] at hc
    by_cases hv : (cleanName r = "" || (cleanName r).length < 2) = true
    · rw [if_pos hv] at hc
      obtain ⟨r1, hc1, hval1, hseen1, hfind1⟩ := ih seen c hc
      refine ⟨r1, hc1, hval1, hseen1, ?_⟩
      rw [List.find?_cons_of_neg, hfind1]
      simp [validRaw, hv]
    · rw [if_neg hv] at hc
      by_cases hk : dedupKeyOf r ∈ seen
      · rw [if_pos hk] at hc
        obtain ⟨r1, hc1, hval1, hseen1, hfind1⟩ := ih seen c hc
        refine ⟨r1, hc1, hval1, hseen1, ?_⟩
        rw [List.find?_cons_of_neg, hfind1]
        have hne : dedupKeyOf r ≠ dedupKeyOf r1 := fun he => hseen1 (he ▸ hk)
        simp [hne]
      · rw [if_neg hk] at hc
        rcases List.mem_cons.mp hc with rfl | hc
        · refine ⟨r, rfl, by simp [validRaw, hv], hk, ?_⟩
          rw [List.find?_cons_of_pos]
          simp [validRaw, hv]
        · obtain ⟨r1, hc1, hval1, hseen1, hfind1⟩ := ih _ c hc
          have hne : dedupKeyOf r ≠ dedupKeyOf r1 := by
            intro he
            exact hseen1 (he ▸ List.mem_cons_self _ _)
          refine ⟨r1, hc1, hval1, fun hmem => hseen1 (List.mem_cons_of_mem _ hmem), ?_⟩
          rw [List.find?_cons_of_neg, hfind1]
          simp [hne]

/-- The keys of the emitted records are pairwise distinct. -/
theorem cleanGo_pairwise (cfg : Config) :
    ∀ (rs : List Record) (seen : List DedupKey),
      (cleanGo cfg rs seen).Pairwise (fun a b => outTripleKey a ≠ outTripleKey b) := by
  intro rs
  induction rs with
  | nil => intro seen; simp [cleanGo]
  | cons r rs ih =>
    intro seen
    rw [cleanGo]
    split
    · exact ih seen
    · split
      · exact ih seen
      case isFalse hv hk =>
        refine List.Pairwise.cons ?_ (ih _)
        intro b hb
        obtain ⟨r1, rfl, _, hseen1, _⟩ := cleanGo_sound cfg _ _ b hb
        rw [outTripleKey_cleanedRecord, outTripleKey_cleanedRecord]
        intro he
        exact hseen1 (tripleOfKey_inj he ▸ List.mem_cons_self _ _)

/-- Every valid input record's key is represented in the output. -/
theorem cleanGo_complete (cfg : Config) :
    ∀ (rs : List Record) (seen : List DedupKey) (r : Record), r ∈ rs → validRaw r = true →
      dedupKeyOf r ∉ seen →
      ∃ c ∈ cleanGo cfg rs seen, outTripleKey c = tripleOfKey (dedupKeyOf r) := by
  intro rs
  induction rs with
  | nil => intro seen r hr; simp at hr
  | cons r0 rs ih =>
    intro seen r hr hval hseen
    rw [cleanGo]
    rcases List.mem_cons.mp hr with rfl | hr
    · have hv : ¬(cleanName r = "" || (cleanName r).length < 2) = true := by
        simpa [validRaw] using hval
      rw [if_neg hv, if_neg hseen]
      exact ⟨cleanedRecord cfg r, List.mem_cons_self _ _, outTripleKey_cleanedRecord cfg r⟩
    · split
      · exact ih seen r hr hval hseen
      · split
        · exact ih seen r hr hval hseen
        case isFalse hv hk =>
          by_cases heq : dedupKeyOf r = dedupKeyOf r0
          · exact ⟨cleanedRecord cfg r0, List.mem_cons_self _ _,
              heq ▸ outTripleKey_cleanedRecord cfg r0⟩
          · obtain ⟨c, hc, hck⟩ := ih (dedupKeyOf r0 :: seen) r hr hval (by
              intro hmem
              rcases List.mem_cons.mp hmem with h | h
              · exact heq h
              · exact hseen h)
            exact ⟨c, List.mem_cons_of_mem _ hc, hck⟩

/-- C1 counterexample: two raw records sharing course name `高数甲` and
instructor `张三` but with different weeks are both kept, so the cleaned
output of `clean_courses` (default configuration and dedupe keys) does
contain two records agreeing on the configured dedupe-key tuple
(course name, instructor). -/
theorem C1_dedup_counterexample :
    ¬ (clean_courses {} Option.none [c1rawA, c1rawB]).Pairwise
        (fun a b => outPairKey a ≠ outPairKey b) := by
  decide

/-- C1 (amended): `clean_courses` deduplicates on the hard-coded triple
`(课程名称, 周次, 节次)` — not on the configured dedupe keys, which it
resolves and then ignores.  For that triple the claim's shape holds: no
two cleaned records share the triple, each cleaned record is the image of
the first valid raw record (in extraction order) carrying its triple, and
every valid raw record's triple is represented (later duplicates are
dropped silently rather than reported). -/
theorem C1_dedup_first_kept (cfg : Config) (dk : Option (List String)) (rs : List Record) :
    (clean_courses cfg dk rs).Pairwise (fun a b => outTripleKey a ≠ outTripleKey b) ∧
    (∀ c ∈ clean_courses cfg dk rs, ∃ r, c = cleanedRecord cfg r ∧
      rs.find? (fun x => validRaw x && decide (dedupKeyOf x = dedupKeyOf r)) = some r) ∧
    (∀ r ∈ rs, validRaw r = true →
      ∃ c ∈ clean_courses cfg dk rs, outTripleKey c = tripleOfKey (dedupKeyOf r)) :=
  ⟨cleanGo_pairwise cfg rs [],
   fun c hc => by
    obtain ⟨r, h1, _, _, h4⟩ := cleanGo_sound cfg rs [] c hc
    exact ⟨r, h1, h4⟩,
   fun r hr hval => cleanGo_complete cfg rs [] r hr hval (by simp)⟩

/-- C1 witness: the amended theorem applied to the counterexample input;
the two distinct `(name, week, section)` triples are both kept in first
occurrence order. -/
theorem C1_dedup_first_kept_witness :
    (clean_courses {} Option.none [c1rawA, c1rawB]).Pairwise
      (fun a b => outTripleKey a ≠ outTripleKey b) ∧
    validRaw c1rawA = true ∧
    ∃ c ∈ clean_courses {} Option.none [c1rawA, c1rawB],
      outTripleKey c = tripleOfKey (dedupKeyOf c1rawA) :=
  ⟨(C1_dedup_first_kept {} Option.none [c1rawA, c1rawB]).1,
   by decide,
   (C1_dedup_first_kept {} Option.none [c1rawA, c1rawB]).2.2 c1rawA
     (List.mem_cons_self _ _) (by decide)⟩

/-! ## C10: the cleaned-record field set -/

/-- C10: every record produced by `clean_courses` has exactly the eleven
fields of the cleaned-record literal, in its order, and in particular the
extraction-time `来源标识` locator is absent. -/
theorem C10_cleaned_fields (cfg : Config) (dk : Option (List String)) (rs : List Record)
    (c : Record) (hc : c ∈ clean_courses cfg dk rs) :
    c.map Prod.fst =
      ["文件来源", "sheet/页码", "课程名称", "讲师", "课时", "分类", "周次", "地点",
       "节次", "时间段", "来源原文_课程名"] ∧
    rlookup c "来源标识" = Option.none := by
  obtain ⟨r, rfl, -, -, -⟩ := cleanGo_sound cfg rs [] c hc
  exact ⟨rfl, rfl⟩

/-- C10 witness: the theorem applied to a raw record that carries
`来源标识`; the cleaned output drops it. -/
theorem C10_cleaned_fields_witness :
    ((clean_courses {} Option.none [c10raw]).headD []).map Prod.fst =
      ["文件来源", "sheet/页码", "课程名称", "讲师", "课时", "分类", "周次", "地点",
       "节次", "时间段", "来源原文_课程名"] ∧
    rlookup ((clean_courses {} Option.none [c10raw]).headD []) "来源标识" = Option.none :=
  C10_cleaned_fields {} Option.none [c10raw] _ (by decide)

/-! ## C6: instructor fallback scenario -/

/-- C6: on the cell text `高等数学/张三/23计算机本` with no explicit
`讲师:` label, the cell field recovery (`parse_course_cell`) returns a
record with instructor exactly `张三` and course name exactly `高等数学`;
the gui teacher extractor agrees on the instructor. -/
theorem C6_instructor_fallback :
    ((parse_course_cell "高等数学/张三/23计算机本" "上午" "1-2" "星期一").map
        (fun r => (rget r "讲师", rget r "课程名称"))) =
      some (Val.str "张三", Val.str "高等数学") ∧
    extract_teacher_from_cell "高等数学/张三/23计算机本" = "张三" := by
  decide

/-! ## C7: header-row rejection -/

/-- C7 counterexample: in the PDF branch of `gui_run.parse_single_file`
only row index 0 of a table is skipped; the header row
`[星期一, 星期二, 节次, 时间段]` appearing at index 1 is parsed as content,
emitting course records (with course names `节次` and `时间段`) that
originate from that row — the preceding row has fewer than 3 cells and can
contribute nothing. -/
theorem C7_header_counterexample :
    (gui_parse_pdf "f" [[[[Option.none, Option.none], hdr4Row]]]).map
        (fun r => rget r "课程名称") =
      [Val.str "节次", Val.str "时间段"] := by
  decide

/-- C7 (amended): in `file_parser.parse_pdf` the header row is never
emitted: it is detected by `is_header_row`, its row contributes no
records, and every emitted record of a table originates from a non-header
row after index 0.  (In `gui_run.parse_single_file` only row 0 is skipped,
as the counterexample shows.) -/
theorem C7_header_rejected (file : String) (pageNum : Nat) (table : List TableRow) :
    is_header_row hdr4Row = true ∧
    fpRow file pageNum hdr4Row = [] ∧
    (∀ r ∈ fpTable file pageNum table,
      ∃ row ∈ table.drop 1, row ≠ hdr4Row ∧ r ∈ fpRow file pageNum row) := by
  refine ⟨by decide, rfl, ?_⟩
  intro r hr
  obtain ⟨row, hrow, hmem⟩ := List.mem_flatMap.mp hr
  refine ⟨row, hrow, ?_, hmem⟩
  rintro rfl
  rw [show fpRow file pageNum hdr4Row = [] from rfl] at hmem
  exact absurd hmem (List.not_mem_nil r)

/-- C7 witness: the amended theorem applied to a concrete table that
contains the header row below index 0. -/
theorem C7_header_rejected_witness :
    is_header_row hdr4Row = true ∧ fpRow "f" 1 hdr4Row = [] :=
  ⟨(C7_header_rejected "f" 1 [hdr4Row, hdr4Row]).1,
   (C7_header_rejected "f" 1 [hdr4Row, hdr4Row]).2.1⟩

/-! ## C8: hours estimation from section text -/

/-- C8 counterexample: the gui PDF branch estimates 2 hours for any
hyphenated section; for section `1-2` it emits a record with `课时 = 2`,
while the claimed formula `max(1, (|2-1|+1)//2)` gives 1. -/
theorem C8_section_hours_counterexample :
    (gui_parse_pdf "f" [[[[Option.none, Option.none],
        [some "上午", some "1-2", some "外语听力"]]]]).map
        (fun r => (rget r "节次", rget r "课时")) =
      [(Val.str "1-2", Val.int 2)] ∧
    specSectionHours "1-2" = some 1 := by
  decide

/-- C8 (amended): in `file_parser.parse_course_cell` the hours stored on
every recovered record equal `fpClassHour` of the section, and that
estimate satisfies the claimed cases: `max(1, (|b-a|+1)//2)` for a
hyphenated section with digit runs `a`, `b`; 1 for a single numeric
section; 0 for an empty section.  (The gui branch instead assigns 2 to
every hyphenated section, as the counterexample shows.) -/
theorem C8_section_hours (s : String) (a b : Nat) :
    (∀ cell tp wd r, parse_course_cell cell tp s wd = some r →
        rget r "课时" = Val.int (fpClassHour s)) ∧
    (digitRuns s = [a, b] → strIn "-" s = true →
        fpClassHour s = max 1 ((((b : Int) - (a : Int)).natAbs + 1) / 2)) ∧
    fpClassHour (natStr a) = 1 ∧
    fpClassHour "" = 0 := by
  refine ⟨?_, ?_, ?_, rfl⟩
  · intro cell tp wd r hr
    simp only [parse_course_cell] at hr
    split at hr
    · exact absurd hr (by simp)
    · injection hr with h
      subst h
      rfl
  · intro hruns hdash
    have hne : s ≠ "" := by
      rintro rfl
      have h0 : ([] : List Nat) = [a, b] := hruns
      simp at h0
    unfold fpClassHour
    rw [if_neg hne, if_pos hdash, hruns]
  · have hne : natStr a ≠ "" := by
      intro h
      exact natChars_ne_nil a (congrArg String.data h)
    have hnodash : strIn "-" (natStr a) = false := by
      have : ∀ l : List Char, (∀ c ∈ l, c.isDigit = true) → isSubList ['-'] l = false := by
        intro l hl
        induction l with
        | nil => rfl
        | cons c cs ih =>
          have hc : c.isDigit = true := hl c (List.mem_cons_self _ _)
          have hne : ('-' : Char) ≠ c := by
            intro h
            rw [← h] at hc
            exact absurd hc (by decide)
          rw [isSubList, ih (fun x hx => hl x (List.mem_cons_of_mem _ hx)), Bool.or_false]
          simp [List.isPrefixOf, hne]
      have h2 := this (natChars a) (natChars_digits a)
      simpa [strIn, natStr] using h2
    unfold fpClassHour
    rw [if_neg hne, hnodash]
    simp only [Bool.false_eq_true, if_false]
    rw [show digitRuns (natStr a) = [a] from digitRuns_natStr a]
    rfl

/-- C8 witness: the amended theorem applied at the hyphenated section
`3-6` (estimate 2), the single numeric section `7` (estimate 1), and a
concrete parsed cell. -/
theorem C8_section_hours_witness :
    fpClassHour "3-6" = max 1 ((((6 : Int) - (3 : Int)).natAbs + 1) / 2) ∧
    fpClassHour (natStr 7) = 1 := by
  have h := C8_section_hours "3-6" 3 6
  have h7 := C8_section_hours "x" 7 0
  exact ⟨h.2.1 (by decide) (by decide), h7.2.2.1⟩

/-! ## C3: the carry-forward time-period slot -/

/-- C3 counterexample: on one page with two tables, the slot remembered
from table 1 (`晚上`) fills the merged gap in table 2, whose record is
classified `星期一-晚上`; under the spec's per-table reset the same record
would be classified `星期一-下午` (inferred from its section `5-6`), so the
actual parse differs from the per-table-reset parse. -/
theorem C3_carry_counterexample :
    gui_parse_pdf "f" c3pages ≠ specTableScopedParse "f" 1 c3pages ∧
    (gui_parse_pdf "f" c3pages).map (fun r => rget r "分类") =
      [Val.str "星期一-晚上", Val.str "星期一-晚上"] ∧
    (specTableScopedParse "f" 1 c3pages).map (fun r => rget r "分类") =
      [Val.str "星期一-晚上", Val.str "星期一-下午"] := by
  refine ⟨?_, by decide, by decide⟩
  decide

/-- C3 (amended): the carry-forward slot is scoped to one *page* of the
gui PDF branch: pages are processed independently (no slot crosses a page
boundary), within a page the slot starts empty and the slot left by one
table is carried into the next table of the same page. -/
theorem C3_slot_page_scoped (file : String) (n : Nat) (ps1 ps2 : List (List Table))
    (tables : List Table) (t : Table) (ts : List Table) (slot : String) :
    guiPages file n (ps1 ++ ps2) = guiPages file n ps1 ++ guiPages file (n + ps1.length) ps2 ∧
    guiPage file n tables = (if tables.isEmpty then [] else (guiTablesGo file n "" tables).1) ∧
    (guiTablesGo file n slot (t :: ts)).1 =
      (guiRowsGo file n slot 0 t).1 ++
        (guiTablesGo file n (guiRowsGo file n slot 0 t).2 ts).1 := by
  refine ⟨?_, rfl, rfl⟩
  induction ps1 generalizing n with
  | nil => simp [guiPages]
  | cons p ps ih =>
    have hn : n + (p :: ps).length = n + 1 + ps.length := by
      simp only [List.length_cons]
      omega
    calc guiPages file n ((p :: ps) ++ ps2)
        = guiPage file n p ++ guiPages file (n + 1) (ps ++ ps2) := rfl
      _ = guiPage file n p ++
            (guiPages file (n + 1) ps ++ guiPages file (n + 1 + ps.length) ps2) := by
          rw [ih (n + 1)]
      _ = (guiPage file n p ++ guiPages file (n + 1) ps) ++
            guiPages file (n + 1 + ps.length) ps2 := by
          rw [List.append_assoc]
      _ = guiPages file n (p :: ps) ++ guiPages file (n + (p :: ps).length) ps2 := by
          rw [hn]
          rfl

/-- C3 witness: the amended theorem applied to the counterexample page
split into a two-page list. -/
theorem C3_slot_page_scoped_witness :
    guiPages "f" 1 (c3pages ++ c3pages) =
      guiPages "f" 1 c3pages ++ guiPages "f" (1 + c3pages.length) c3pages :=
  (C3_slot_page_scoped "f" 1 c3pages c3pages [] [] [] "").1

/-! ## C2: exclusion of zero-hour records from the aggregates -/

theorem hasCol_of_mem {rs : List Record} {x : Record} {k : String}
    (hx : x ∈ rs) (h : rhas x k = true) : hasCol rs k = true :=
  List.any_eq_true.mpr ⟨x, hx, h⟩

theorem hasCol_eq_false {rs : List Record} {k : String}
    (h : ∀ x ∈ rs, rhas x k = false) : hasCol rs k = false := by
  rw [hasCol, List.any_eq_false]
  intro x hx
  simp [h x hx]

/-- C2 counterexample: the cleaned output of the CLI pipeline on `c2raws`
is one two-hour record and one zero-hour record, yet `stat_and_export`
reports total course count 2 and distinct instructor count 2 — the
zero-hour record contributes to both (and its `未知` category to the
category count), contradicting the claimed exclusion. -/
theorem C2_zero_hours_counterexample :
    (clean_courses {} Option.none c2raws).map (fun r => rget r "课时") =
      [Val.int 2, Val.int 0] ∧
    stat_and_export_totals (clean_courses {} Option.none c2raws) =
      some { totalCourses := 2, totalHours := 0, teacherCount := 2, categoryCount := 1 } ∧
    stat_and_export_totals [(clean_courses {} Option.none c2raws).headD []] =
      some { totalCourses := 1, totalHours := 0, teacherCount := 1, categoryCount := 1 } := by
  refine ⟨by decide, by decide, by decide⟩

/-- C2 (amended): in `gui_run.stat_courses` every aggregate is computed
over the records with positive standardised hours, so removing a
zero-hour cleaned record from the input changes no statistic; the claim
fails for `stat_export.stat_and_export`, which aggregates over all
records (see the counterexample). -/
theorem C2_zero_hours_excluded (xs ys : List Record) (r : Record)
    (hshape : ∀ x ∈ xs ++ r :: ys, cleanedShape x = true)
    (hr : rget r "课时" = Val.int 0)
    (hne : xs ++ ys ≠ []) :
    stat_courses_stats (xs ++ r :: ys) = stat_courses_stats (xs ++ ys) := by
  have hsub : ∀ x ∈ xs ++ ys, x ∈ xs ++ r :: ys := by
    intro x hx
    rcases List.mem_append.mp hx with h | h
    · exact List.mem_append.mpr (Or.inl h)
    · exact List.mem_append.mpr (Or.inr (List.mem_cons_of_mem _ h))
  have hrmem : r ∈ xs ++ r :: ys := List.mem_append.mpr (Or.inr (List.mem_cons_self _ _))
  have shape1 := fun x hx => hshape x hx
  have hstdL : hasCol (xs ++ r :: ys) "课时_标准化" = false := by
    apply hasCol_eq_false
    intro x hx
    have := hshape x hx
    simp only [cleanedShape, Bool.and_eq_true, Bool.not_eq_true'] at this
    exact this.2
  have hstdL' : hasCol (xs ++ ys) "课时_标准化" = false := by
    apply hasCol_eq_false
    intro x hx
    have := hshape x (hsub x hx)
    simp only [cleanedShape, Bool.and_eq_true, Bool.not_eq_true'] at this
    exact this.2
  obtain ⟨x0, hx0⟩ : ∃ x, x ∈ xs ++ ys := by
    cases h : xs ++ ys with
    | nil => exact absurd h hne
    | cons a t => exact ⟨a, List.mem_cons_self _ _⟩
  have hx0shape := hshape x0 (hsub x0 hx0)
  have hx0cols : rhas x0 "课时" = true ∧ rhas x0 "讲师" = true ∧ rhas x0 "分类" = true ∧
      rhas x0 "周次" = true := by
    simp only [cleanedShape, Bool.and_eq_true] at hx0shape
    exact ⟨hx0shape.1.1.1.1, hx0shape.1.1.1.2, hx0shape.1.1.2, hx0shape.1.2⟩
  have hcolL : ∀ k, rhas x0 k = true → hasCol (xs ++ r :: ys) k = true :=
    fun k hk => hasCol_of_mem (hsub x0 hx0) hk
  have hcolL' : ∀ k, rhas x0 k = true → hasCol (xs ++ ys) k = true :=
    fun k hk => hasCol_of_mem hx0 hk
  have hhf : hoursStdOf (xs ++ r :: ys) = hoursStdOf (xs ++ ys) := by
    funext x
    unfold hoursStdOf
    rw [hstdL, hstdL', hcolL _ hx0cols.1, hcolL' _ hx0cols.1]
  have hcf : categoryFill (xs ++ r :: ys) = categoryFill (xs ++ ys) := by
    funext x
    unfold categoryFill
    rw [hcolL _ hx0cols.2.2.1, hcolL' _ hx0cols.2.2.1]
  have hwc : hasCol (xs ++ r :: ys) "周次" = hasCol (xs ++ ys) "周次" := by
    rw [hcolL _ hx0cols.2.2.2, hcolL' _ hx0cols.2.2.2]
  have hpr : (0 < hoursStdOf (xs ++ ys) r) = False := by
    have : hoursStdOf (xs ++ ys) r = 0 := by
      unfold hoursStdOf
      rw [hstdL', hcolL' _ hx0cols.1, hr]
      rfl
    simp [this]
  have hv : (xs ++ r :: ys).filter (fun x => 0 < hoursStdOf (xs ++ ys) x) =
      (xs ++ ys).filter (fun x => 0 < hoursStdOf (xs ++ ys) x) := by
    rw [List.filter_append, List.filter_append, List.filter_cons]
    simp [hpr]
  have hLne : ¬((xs ++ r :: ys).isEmpty = true) := by simp
  have hLne' : ¬((xs ++ ys).isEmpty = true) := by
    simp only [List.isEmpty_iff]
    exact hne
  unfold stat_courses_stats
  rw [if_neg hLne, if_neg hLne']
  simp only [hhf, hcf, hwc, hv]

/-- C2 witness: the amended theorem applied to a concrete two-record
cleaned set with a zero-hour record. -/
theorem C2_zero_hours_excluded_witness :
    stat_courses_stats ([c2cleanA] ++ c2cleanZ :: []) = stat_courses_stats ([c2cleanA] ++ []) :=
  C2_zero_hours_excluded [c2cleanA] [] c2cleanZ (by decide) (by decide) (by simp)

/-! ## Lemmas: stripping and course-name normalisation -/

theorem mem_dropWhile {p : Char → Bool} : ∀ {l : List Char} {x : Char},
    x ∈ l.dropWhile p → x ∈ l := by
  intro l
  induction l with
  | nil => intro x h; exact h
  | cons c cs ih =>
    intro x h
    rw [List.dropWhile_cons] at h
    split at h
    · exact List.mem_cons_of_mem _ (ih h)
    · exact h

theorem mem_pstripList {l : List Char} {x : Char} (h : x ∈ pstripList l) : x ∈ l := by
  unfold pstripList at h
  rw [List.mem_reverse] at h
  have h2 := mem_dropWhile h
  rw [List.mem_reverse] at h2
  exact mem_dropWhile h2

theorem dropWhile_head_false {p : Char → Bool} : ∀ {l : List Char} {c : Char},
    (l.dropWhile p).head? = some c → p c = false := by
  intro l
  induction l with
  | nil => intro c h; exact absurd h (by simp)
  | cons a as ih =>
    intro c h
    rw [List.dropWhile_cons] at h
    split at h
    · exact ih h
    · rw [List.head?_cons, Option.some.injEq] at h
      subst h
      rename_i hpa
      simpa using hpa

theorem dropWhile_all_false {p : Char → Bool} {l : List Char}
    (h : ∀ c ∈ l, p c = false) : l.dropWhile p = l := by
  cases l with
  | nil => rfl
  | cons c cs =>
    rw [List.dropWhile_cons, h c (List.mem_cons_self _ _)]
    simp

theorem dropWhile_exists_prefix (p : Char → Bool) (l : List Char) :
    ∃ t, l = t ++ l.dropWhile p := by
  induction l with
  | nil => exact ⟨[], rfl⟩
  | cons c cs ih =>
    rw [List.dropWhile_cons]
    split
    · obtain ⟨t, ht⟩ := ih
      exact ⟨c :: t, by rw [List.cons_append, ← ht]⟩
    · exact ⟨[], rfl⟩

theorem pstripList_no_space {l : List Char} (h : ∀ c ∈ l, isPySpace c = false) :
    pstripList l = l := by
  unfold pstripList
  rw [dropWhile_all_false h, dropWhile_all_false (fun c hc => h c (List.mem_reverse.mp hc)),
    List.reverse_reverse]

theorem pstripList_idem (l : List Char) : pstripList (pstripList l) = pstripList l := by
  have hm : pstripList l = ((l.dropWhile isPySpace).reverse.dropWhile isPySpace).reverse := rfl
  set m := l.dropWhile isPySpace with hmdef
  set P := m.reverse.dropWhile isPySpace with hPdef
  rw [hm]
  show pstripList P.reverse = P.reverse
  obtain ⟨t, ht⟩ := dropWhile_exists_prefix isPySpace m.reverse
  have hQdrop : P.reverse.dropWhile isPySpace = P.reverse := by
    cases hQ : P.reverse with
    | nil => rfl
    | cons a as =>
      have hmP : m = a :: (as ++ t.reverse) := by
        have : m = P.reverse ++ t.reverse := by
          have := congrArg List.reverse ht
          rw [List.reverse_reverse, List.reverse_append] at this
          rw [this, hPdef]
        rw [this, hQ, List.cons_append]
      have ha : isPySpace a = false := by
        apply dropWhile_head_false (l := l)
        rw [← hmdef, hmP]
        rfl
      rw [List.dropWhile_cons, ha]
      simp
  rw [pstripList, hQdrop, List.reverse_reverse]
  have hPdrop : P.dropWhile isPySpace = P := by
    cases hP : P with
    | nil => rfl
    | cons c cs =>
      have hc : isPySpace c = false := by
        apply dropWhile_head_false (l := m.reverse)
        rw [← hPdef, hP]
        rfl
      rw [List.dropWhile_cons, hc]
      simp
  rw [hPdrop]

theorem pstrip_idem (s : String) : pstrip (pstrip s) = pstrip s :=
  congrArg String.mk (pstripList_idem s.data)

theorem pstrip_of_no_space {s : String} (h : ∀ c ∈ s.data, isPySpace c = false) :
    pstrip s = s := by
  cases s with
  | mk data => exact congrArg String.mk (pstripList_no_space h)

theorem normalize_course_name_idem (v : Val) :
    normalize_course_name (Val.str (normalize_course_name v)) = normalize_course_name v := by
  by_cases h : normalize_course_name v = ""
  · rw [h]
    rfl
  · have htr : (Val.str (normalize_course_name v)).truthy = true := by
      simp [Val.truthy, h]
    rw [normalize_course_name, htr]
    simp only [Bool.not_true, Bool.false_eq_true, if_false]
    have hvshape : ∃ l : List Char, normalize_course_name v =
        String.mk (pstripList (l.filter isAllowedNameChar)) := by
      unfold normalize_course_name
      split
      case isTrue hft =>
        exfalso
        apply h
        unfold normalize_course_name
        rw [if_pos hft]
      case isFalse hft => exact ⟨v.pyStr.data, rfl⟩
    obtain ⟨l, hl⟩ := hvshape
    rw [hl]
    have hdata : (Val.str (String.mk (pstripList (l.filter isAllowedNameChar)))).pyStr.data =
        pstripList (l.filter isAllowedNameChar) := rfl
    rw [hdata]
    have hfilter : (pstripList (l.filter isAllowedNameChar)).filter isAllowedNameChar =
        pstripList (l.filter isAllowedNameChar) := by
      apply List.filter_eq_self.mpr
      intro a ha
      exact (List.mem_filter.mp (mem_pstripList ha)).2
    rw [hfilter, show pstrip (String.mk (pstripList (l.filter isAllowedNameChar))) =
      String.mk (pstripList (pstripList (l.filter isAllowedNameChar))) from rfl,
      pstripList_idem]

/-! ## Lemmas: CJK-name shapes and the teacher checks -/

theorem nameChar_not_space {c : Char} (h : isNameChar c = true) : isPySpace c = false := by
  rcases Bool.or_eq_true _ _ |>.mp h with hcjk | hdot
  · have h1 : 19968 ≤ c.toNat := by
      simp only [isCJK, Bool.and_eq_true, decide_eq_true_eq, UInt32.le_def, BitVec.le_def] at hcjk
      have := hcjk.1
      simpa [Char.toNat, UInt32.toNat] using this
    by_contra hsp
    rw [Bool.not_eq_false] at hsp
    simp only [isPySpace, Bool.or_eq_true, decide_eq_true_eq] at hsp
    rcases hsp with ((((((h2 | h2) | h2) | h2) | h2) | h2) | h2) | h2
    · subst h2; exact absurd h1 (by decide)
    · subst h2; exact absurd h1 (by decide)
    · subst h2; exact absurd h1 (by decide)
    · subst h2; exact absurd h1 (by decide)
    · have : c.toNat = 11 := by rw [Char.toNat, h2]; decide
      omega
    · have : c.toNat = 12 := by rw [Char.toNat, h2]; decide
      omega
    · have : c.toNat = 160 := by rw [Char.toNat, h2]; decide
      omega
    · have : c.toNat = 12288 := by rw [Char.toNat, h2]; decide
      omega
  · rcases Bool.or_eq_true _ _ |>.mp hdot with h2 | h2
    · rw [decide_eq_true_eq] at h2; subst h2; decide
    · rw [decide_eq_true_eq] at h2; subst h2; decide

theorem nameShape_all {lo hi : Nat} {d : String} (h : nameShape lo hi d = true) :
    ∀ c ∈ d.data, isNameChar c = true := by
  simp only [nameShape, Bool.and_eq_true, List.all_eq_true, decide_eq_true_eq] at h
  exact h.2

theorem nameShape_len {lo hi : Nat} {d : String} (h : nameShape lo hi d = true) :
    lo ≤ d.data.length ∧ d.data.length ≤ hi := by
  simp only [nameShape, Bool.and_eq_true, decide_eq_true_eq] at h
  exact ⟨h.1.1, h.1.2⟩

theorem nameShape_pstrip {d : String} (h : ∀ c ∈ d.data, isNameChar c = true) :
    pstrip d = d :=
  pstrip_of_no_space (fun c hc => nameChar_not_space (h c hc))

theorem teacherChecks_cases (cfg : Config) (name t0 : String) :
    teacherChecks cfg name t0 = "" ∨ teacherChecks cfg name t0 = t0 := by
  simp only [teacherChecks]
  split
  · exact Or.inl rfl
  · split
    · exact Or.inl rfl
    · split
      · exact Or.inl rfl
      · exact Or.inr rfl

theorem teacherChecks_sentinel (cfg : Config) (name : String) :
    teacherChecks cfg name "未安排" = "" := by
  simp only [teacherChecks]
  have hnoise : noisePatterns.any (fun tok => strIn tok "未安排") = true := by decide
  rw [hnoise]
  simp

theorem isValid_shape {cfg : Config} {d : String} (h : isValidChineseName cfg d = true) :
    nameShape 2 4 d = true := by
  unfold isValidChineseName at h
  split at h
  · exact absurd h (by simp)
  · split at h
    case isTrue hs => exact absurd h (by simp)
    case isFalse hs => simpa using hs

theorem validGuard_valid {cfg : Config} {x : String} (h : validGuard cfg x ≠ "") :
    isValidChineseName cfg (validGuard cfg x) = true := by
  unfold validGuard at h ⊢
  split at h
  case isTrue hx =>
    rw [if_pos hx]
    exact hx
  case isFalse hx => exact absurd rfl h

theorem deriveChoose_valid {cfg : Config} {cand : List String}
    (h : deriveChoose cfg cand ≠ "") :
    isValidChineseName cfg (deriveChoose cfg cand) = true := by
  cases cand with
  | nil => exact absurd rfl h
  | cons a t => exact validGuard_valid h

theorem deriveTeacher_valid {cfg : Config} {s name : String}
    (h : deriveTeacher cfg s name ≠ "") :
    isValidChineseName cfg (deriveTeacher cfg s name) = true :=
  deriveChoose_valid h

theorem derived_pstrip {cfg : Config} {s name : String}
    (h : deriveTeacher cfg s name ≠ "") :
    pstrip (deriveTeacher cfg s name) = deriveTeacher cfg s name ∧
    nameShape 2 6 (deriveTeacher cfg s name) = true := by
  have hvalid := deriveTeacher_valid h
  have hshape := isValid_shape hvalid
  refine ⟨nameShape_pstrip (nameShape_all hshape), ?_⟩
  have hall := nameShape_all hshape
  have hlen := nameShape_len hshape
  simp only [nameShape, Bool.and_eq_true, decide_eq_true_eq, List.all_eq_true]
  exact ⟨⟨hlen.1, by omega⟩, fun c hc => hall c hc⟩

/-! ## Lemmas: stability of the cleaned teacher under re-cleaning -/

theorem pyOr_str_self (x : String) : pyOr (Val.str x) (Val.str "") = Val.str x := by
  unfold pyOr
  split
  · rfl
  case isFalse h =>
    simp only [Val.truthy, ne_eq, decide_not, Bool.not_eq_true', decide_eq_false_iff_not,
      not_not] at h
    rw [h]

theorem clean_teacher_str (cfg : Config) (s : Val) (name w : String) :
    clean_teacher cfg (Val.str w) s name =
      teacherFinish cfg s name (teacherChecks cfg name (pstrip w)) := by
  unfold clean_teacher
  rw [pyOr_str_self]
  rfl

theorem teacherFinish_of_ne (cfg : Config) (s : Val) (name T : String) (h : T ≠ "") :
    teacherFinish cfg s name T = T := by
  simp only [teacherFinish]
  rw [if_neg (show ¬(decide (T = "") && s.truthy) = true by simp [h]), if_neg h]

theorem teacherFinish_empty (cfg : Config) (s : Val) (name : String) :
    teacherFinish cfg s name "" =
      (if s.truthy = true then
        (if deriveTeacher cfg s.pyStr name = "" then "未安排" else deriveTeacher cfg s.pyStr name)
       else "未安排") := by
  simp only [teacherFinish]
  by_cases hs : s.truthy = true
  · simp [hs]
  · simp [hs]

theorem clean_teacher_stable (cfg : Config) (t₀ s₁ s₂ : Val) (name : String)
    (htr : s₁.truthy = s₂.truthy)
    (hps : s₁.truthy = true → s₁.pyStr = s₂.pyStr) :
    clean_teacher cfg (Val.str (clean_teacher cfg t₀ s₁ name)) s₂ name =
      clean_teacher cfg t₀ s₁ name := by
  set X := pstrip (pyOr t₀ (Val.str "")).pyStr with hX
  set T := teacherChecks cfg name X with hT
  have hfirst : clean_teacher cfg t₀ s₁ name = teacherFinish cfg s₁ name T := rfl
  have hXstrip : pstrip X = X := pstrip_idem _
  by_cases hTe : T = ""
  · -- the raw value was invalidated: the first pass is sentinel or derived
    rw [hfirst, hTe, teacherFinish_empty]
    by_cases hs1 : s₁.truthy = true
    · have hs2 : s₂.truthy = true := htr ▸ hs1
      have hD2 : deriveTeacher cfg s₂.pyStr name = deriveTeacher cfg s₁.pyStr name := by
        rw [hps hs1]
      by_cases hDe : deriveTeacher cfg s₁.pyStr name = ""
      · -- derived nothing: sentinel, and re-cleaning the sentinel derives nothing again
        rw [if_pos hs1, if_pos hDe, clean_teacher_str,
          show pstrip "未安排" = "未安排" from rfl, teacherChecks_sentinel,
          teacherFinish_empty, if_pos hs2, hD2, if_pos hDe]
      · -- a derived name: it re-derives to itself even if the checks reject it
        rw [if_pos hs1, if_neg hDe, clean_teacher_str]
        obtain ⟨hDs, -⟩ := derived_pstrip hDe
        rw [hDs]
        rcases teacherChecks_cases cfg name (deriveTeacher cfg s₁.pyStr name) with hU | hU
        · rw [hU, teacherFinish_empty, if_pos hs2, hD2, if_neg hDe]
        · rw [hU, teacherFinish_of_ne _ _ _ _ hDe]
    · -- no source text: sentinel, and the second pass has no source text either
      have hs2 : ¬s₂.truthy = true := htr ▸ hs1
      rw [if_neg hs1, clean_teacher_str, show pstrip "未安排" = "未安排" from rfl,
        teacherChecks_sentinel, teacherFinish_empty, if_neg hs2]
  · -- the raw value passed the checks: it passes them again
    have hTX : T = X := by
      rcases teacherChecks_cases cfg name X with h | h
      · exact absurd (hT.trans h) hTe
      · exact hT.trans h
    rw [hfirst, teacherFinish_of_ne _ _ _ _ hTe, clean_teacher_str, hTX, hXstrip, ← hT,
      teacherFinish_of_ne _ _ _ _ hTe]
    exact hTX

/-! ## Lemmas: stability of cleaned records under re-cleaning -/

theorem pyOr_pyOr (x : Val) : pyOr (pyOr x (Val.str "")) (Val.str "") = pyOr x (Val.str "") := by
  unfold pyOr
  by_cases h : x.truthy = true
  · rw [if_pos h, if_pos h]
  · rw [if_neg h]
    rfl

theorem cleanName_cleanedRecord (cfg : Config) (r : Record) :
    cleanName (cleanedRecord cfg r) = cleanName r := by
  have h1 : rget (cleanedRecord cfg r) "课程名称" = Val.str (cleanName r) := rfl
  show normalize_course_name (pyOr (rget (cleanedRecord cfg r) "课程名称") (Val.str "")) = _
  rw [h1, pyOr_str_self]
  exact normalize_course_name_idem (pyOr (rget r "课程名称") (Val.str ""))

theorem weekOf_cleanedRecord (cfg : Config) (r : Record) :
    weekOf (cleanedRecord cfg r) = weekOf r := by
  have h1 : rgetD (cleanedRecord cfg r) "周次" (Val.str "") = weekOf r := rfl
  show pyOr (rgetD (cleanedRecord cfg r) "周次" (Val.str "")) (Val.str "") = weekOf r
  rw [h1]
  exact pyOr_pyOr (rgetD r "周次" (Val.str ""))

theorem sectionOf_cleanedRecord (cfg : Config) (r : Record) :
    sectionOf (cleanedRecord cfg r) = sectionOf r := by
  have h1 : rgetD (cleanedRecord cfg r) "节次" (Val.str "") = sectionOf r := rfl
  show pyOr (rgetD (cleanedRecord cfg r) "节次" (Val.str "")) (Val.str "") = sectionOf r
  rw [h1]
  exact pyOr_pyOr (rgetD r "节次" (Val.str ""))

theorem dedupKeyOf_cleanedRecord (cfg : Config) (r : Record) :
    dedupKeyOf (cleanedRecord cfg r) = dedupKeyOf r := by
  unfold dedupKeyOf
  rw [cleanName_cleanedRecord, weekOf_cleanedRecord, sectionOf_cleanedRecord]

theorem validRaw_cleanedRecord (cfg : Config) (r : Record) :
    validRaw (cleanedRecord cfg r) = validRaw r := by
  unfold validRaw
  rw [cleanName_cleanedRecord]

theorem parse_hours_int_nat (h : Nat) : parse_hours (Val.int (h : Int)) = h := by
  rw [parse_hours_int_nonneg _ (Int.natCast_nonneg h)]
  exact Int.toNat_natCast h

theorem catVal_truthy (x : Val) : (if x.truthy = true then x else Val.str "未知").truthy = true := by
  split
  · assumption
  · rfl

theorem pyOr_of_truthy {x : Val} (h : x.truthy = true) (y : Val) : pyOr x y = x := by
  unfold pyOr
  rw [if_pos h]

theorem cleanedRecord_stable (cfg : Config) (r : Record)
    (hsrc : (rgetD r "来源原文_课程名" (Val.str "")).truthy = true ∨
            (rgetD r "来源原文" (Val.str "")).truthy = false) :
    cleanedRecord cfg (cleanedRecord cfg r) = cleanedRecord cfg r := by
  have hteach : clean_teacher cfg (rgetD (cleanedRecord cfg r) "讲师" (Val.str ""))
      (sourceTextOf (cleanedRecord cfg r)) (cleanName (cleanedRecord cfg r)) =
      clean_teacher cfg (rgetD r "讲师" (Val.str "")) (sourceTextOf r) (cleanName r) := by
    have h1 : rgetD (cleanedRecord cfg r) "讲师" (Val.str "") =
        Val.str (clean_teacher cfg (rgetD r "讲师" (Val.str "")) (sourceTextOf r) (cleanName r)) :=
      rfl
    have h2 : sourceTextOf (cleanedRecord cfg r) =
        pyOr (rgetD r "来源原文_课程名" (Val.str "")) (Val.str "") := rfl
    rw [h1, h2, cleanName_cleanedRecord]
    apply clean_teacher_stable
    · by_cases hv1 : (rgetD r "来源原文_课程名" (Val.str "")).truthy = true
      · simp [sourceTextOf, pyOr, hv1]
      · rcases hsrc with h | h
        · exact absurd h hv1
        · have e1 : sourceTextOf r = rgetD r "来源原文" (Val.str "") := by
            unfold sourceTextOf pyOr
            rw [if_neg hv1]
          have e2 : pyOr (rgetD r "来源原文_课程名" (Val.str "")) (Val.str "") = Val.str "" := by
            unfold pyOr
            rw [if_neg hv1]
          rw [e1, e2, h]
          rfl
    · intro ht
      by_cases hv1 : (rgetD r "来源原文_课程名" (Val.str "")).truthy = true
      · simp [sourceTextOf, pyOr, hv1]
      · rcases hsrc with h | h
        · exact absurd h hv1
        · exfalso
          unfold sourceTextOf pyOr at ht
          rw [if_neg hv1] at ht
          rw [ht] at h
          exact absurd h (by simp)
  have hhour : Val.int (parse_hours (rgetD (cleanedRecord cfg r) "课时"
      (rgetD (cleanedRecord cfg r) "课时_标准化" (Val.int 0)))) =
      Val.int (parse_hours (rgetD r "课时" (rgetD r "课时_标准化" (Val.int 0)))) := by
    have h1 : rgetD (cleanedRecord cfg r) "课时"
        (rgetD (cleanedRecord cfg r) "课时_标准化" (Val.int 0)) =
        Val.int (parse_hours (rgetD r "课时" (rgetD r "课时_标准化" (Val.int 0)))) := rfl
    rw [h1, parse_hours_int_nat]
  have hcat :
      (if (pyOr (rgetD (cleanedRecord cfg r) "分类" (Val.str "")) (Val.str "")).truthy = true
       then pyOr (rgetD (cleanedRecord cfg r) "分类" (Val.str "")) (Val.str "")
       else Val.str "未知") =
      (if (pyOr (rgetD r "分类" (Val.str "")) (Val.str "")).truthy = true
       then pyOr (rgetD r "分类" (Val.str "")) (Val.str "")
       else Val.str "未知") := by
    rw [show rgetD (cleanedRecord cfg r) "分类" (Val.str "") =
        (if (pyOr (rgetD r "分类" (Val.str "")) (Val.str "")).truthy = true
         then pyOr (rgetD r "分类" (Val.str "")) (Val.str "")
         else Val.str "未知") from rfl]
    rw [pyOr_of_truthy (catVal_truthy (pyOr (rgetD r "分类" (Val.str "")) (Val.str "")))]
    rw [if_pos (catVal_truthy (pyOr (rgetD r "分类" (Val.str "")) (Val.str "")))]
  show
    [("文件来源", rgetD (cleanedRecord cfg r) "文件来源" (Val.str "")),
     ("sheet/页码", rgetD (cleanedRecord cfg r) "sheet/页码"
        (rgetD (cleanedRecord cfg r) "sheet名称" (Val.str ""))),
     ("课程名称", Val.str (cleanName (cleanedRecord cfg r))),
     ("讲师", Val.str (clean_teacher cfg (rgetD (cleanedRecord cfg r) "讲师" (Val.str ""))
        (sourceTextOf (cleanedRecord cfg r)) (cleanName (cleanedRecord cfg r)))),
     ("课时", Val.int (parse_hours (rgetD (cleanedRecord cfg r) "课时"
        (rgetD (cleanedRecord cfg r) "课时_标准化" (Val.int 0))))),
     ("分类", if (pyOr (rgetD (cleanedRecord cfg r) "分类" (Val.str "")) (Val.str "")).truthy = true
        then pyOr (rgetD (cleanedRecord cfg r) "分类" (Val.str "")) (Val.str "")
        else Val.str "未知"),
     ("周次", weekOf (cleanedRecord cfg r)),
     ("地点", rgetD (cleanedRecord cfg r) "地点" (Val.str "")),
     ("节次", sectionOf (cleanedRecord cfg r)),
     ("时间段", rgetD (cleanedRecord cfg r) "时间段" (Val.str "")),
     ("来源原文_课程名", rgetD (cleanedRecord cfg r) "来源原文_课程名" (Val.str ""))] =
    cleanedRecord cfg r
  rw [hteach, hhour, hcat, cleanName_cleanedRecord, weekOf_cleanedRecord,
    sectionOf_cleanedRecord]
  rfl

/-- If every record of `l` is valid, equal to its own cleaning, and carries a
key outside `seen`, and the keys of `l` are pairwise distinct, then the
cleaning loop returns `l` unchanged. -/
theorem cleanGo_fixed (cfg : Config) :
    ∀ (l : List Record) (seen : List DedupKey),
      (∀ x ∈ l, validRaw x = true ∧ cleanedRecord cfg x = x ∧ dedupKeyOf x ∉ seen) →
      l.Pairwise (fun a b => dedupKeyOf a ≠ dedupKeyOf b) →
      cleanGo cfg l seen = l := by
  intro l
  induction l with
  | nil => intro seen _ _; rfl
  | cons x xs ih =>
    intro seen hall hpw
    obtain ⟨hval, hfix, hseen⟩ := hall x (List.mem_cons_self _ _)
    have hv : ¬(cleanName x = "" || (cleanName x).length < 2) = true := by
      simpa [validRaw] using hval
    rw [cleanGo, if_neg hv, if_neg hseen, hfix]
    congr 1
    refine ih (dedupKeyOf x :: seen) ?_ (List.pairwise_cons.mp hpw).2
    intro y hy
    obtain ⟨h1, h2, h3⟩ := hall y (List.mem_cons_of_mem _ hy)
    refine ⟨h1, h2, ?_⟩
    intro hmem
    rcases List.mem_cons.mp hmem with he | he
    · exact (List.pairwise_cons.mp hpw).1 y hy he.symm
    · exact h3 he

/-- The raw dedupe keys read off the emitted records are pairwise distinct. -/
theorem cleanGo_out_key_pairwise (cfg : Config) (rs : List Record) :
    (cleanGo cfg rs []).Pairwise (fun a b => dedupKeyOf a ≠ dedupKeyOf b) := by
  refine List.Pairwise.imp_of_mem ?_ (cleanGo_pairwise cfg rs [])
  intro a b ha hb hne he
  apply hne
  obtain ⟨ra, rfl, -, -, -⟩ := cleanGo_sound cfg rs [] a ha
  obtain ⟨rb, rfl, -, -, -⟩ := cleanGo_sound cfg rs [] b hb
  rw [outTripleKey_cleanedRecord, outTripleKey_cleanedRecord]
  rw [dedupKeyOf_cleanedRecord, dedupKeyOf_cleanedRecord] at he
  rw [he]

/-- C9 (amended): `clean_courses` is idempotent on every raw sequence in which
no record relies on the `来源原文` fallback for instructor derivation: each
record either carries a truthy `来源原文_课程名` or a falsy `来源原文`.  (The
unconditional statement fails: cleaning drops the `来源原文` field, so an
instructor derived from it on the first pass is replaced by `未安排` on the
second; see the counterexample.) -/
theorem C9_clean_idempotent (cfg : Config) (dk dk2 : Option (List String))
    (rs : List Record)
    (hsrc : ∀ r ∈ rs, (rgetD r "来源原文_课程名" (Val.str "")).truthy = true ∨
        (rgetD r "来源原文" (Val.str "")).truthy = false) :
    clean_courses cfg dk2 (clean_courses cfg dk rs) = clean_courses cfg dk rs := by
  show cleanGo cfg (cleanGo cfg rs []) [] = cleanGo cfg rs []
  refine cleanGo_fixed cfg (cleanGo cfg rs []) [] ?_ (cleanGo_out_key_pairwise cfg rs)
  intro c hc
  obtain ⟨r, rfl, hval, -, hfind⟩ := cleanGo_sound cfg rs [] c hc
  have hrmem : r ∈ rs := List.mem_of_find?_eq_some hfind
  refine ⟨?_, cleanedRecord_stable cfg r (hsrc r hrmem), by simp⟩
  rw [validRaw_cleanedRecord]
  exact hval

/-- Witness for C9: the amended idempotence theorem applied to a concrete
record whose `来源原文` field is absent. -/
theorem C9_clean_idempotent_witness :
    (∀ r ∈ [c1rawA], (rgetD r "来源原文_课程名" (Val.str "")).truthy = true ∨
        (rgetD r "来源原文" (Val.str "")).truthy = false) ∧
    clean_courses {} Option.none (clean_courses {} Option.none [c1rawA]) =
      clean_courses {} Option.none [c1rawA] :=
  ⟨by decide, C9_clean_idempotent {} Option.none Option.none [c1rawA] (by decide)⟩

/-- Counterexample to the unconditional C9: on a record whose instructor is
derived from the `来源原文` fallback, a second cleaning pass changes the
instructor from 王课 to 未安排, because cleaning drops the `来源原文` field. -/
theorem C9_counterexample :
    clean_courses {} Option.none (clean_courses {} Option.none [c9raw]) ≠
      clean_courses {} Option.none [c9raw] ∧
    (clean_courses {} Option.none [c9raw]).map (fun r => rgetD r "讲师" Val.none) =
      [Val.str "王课"] ∧
    (clean_courses {} Option.none (clean_courses {} Option.none [c9raw])).map
        (fun r => rgetD r "讲师" Val.none) = [Val.str "未安排"] := by
  decide

end CourseStat
